import Mathlib

/-
Verification of the FindTheMag2 resource-allocation core.

Python strings are modelled as lists of characters (`PyStr`); `str.upper`
is modelled for the ASCII range, matching its behaviour on the URL and
log-message inputs the program handles.  Python numbers are modelled as
`Int`/`Rat`; fallible code returns `Except`/`Option`.
-/

abbrev PyStr := List Char

/-- Models Python `str.upper` on a single ASCII character. -/
def upperChar (c : Char) : Char :=
  if 97 ≤ c.toNat ∧ c.toNat ≤ 122 then Char.ofNat (c.toNat - 32) else c

/-- Models Python `str.upper`: uppercases every character. -/
def pyUpper (s : PyStr) : PyStr := s.map upperChar

/-- Models the Python substring test `needle in s`. -/
def isSubstr (needle : PyStr) : PyStr → Bool
  | [] => needle.isEmpty
  | c :: rest => needle.isPrefixOf (c :: rest) || isSubstr needle rest

/-- Fuel-driven worker for `pyReplace`; with fuel at least the length of
the subject string it scans left to right, replacing non-overlapping
occurrences. -/
def pyReplaceGo (old new : PyStr) : Nat → PyStr → PyStr
  | 0, s => s
  | _ + 1, [] => []
  | fuel + 1, c :: rest =>
    if old ≠ [] ∧ old.isPrefixOf (c :: rest) then
      new ++ pyReplaceGo old new fuel ((c :: rest).drop old.length)
    else
      c :: pyReplaceGo old new fuel rest

/-- Models Python `s.replace(old, new)` (left-to-right, non-overlapping);
`old` is nonempty for every use in the source. -/
def pyReplace (old new s : PyStr) : PyStr := pyReplaceGo old new s.length s

/-- Models Python `s.endswith(t)` for a one-character suffix. -/
def pyEndsWithChar (ch : Char) (s : PyStr) : Bool :=
  match s.getLast? with
  | some c => c == ch
  | none => false

/- Character-level facts about the ASCII upper-casing. -/

theorem toNat_ofNat_valid {n : Nat} (h : n < 0xd800) : (Char.ofNat n).toNat = n := by
  have hv : Nat.isValidChar n := Or.inl h
  rw [Char.ofNat, dif_pos hv]
  rfl

theorem upperChar_toNat_of_lower {c : Char} (h : 97 ≤ c.toNat ∧ c.toNat ≤ 122) :
    (upperChar c).toNat = c.toNat - 32 := by
  unfold upperChar
  rw [if_pos h]
  exact toNat_ofNat_valid (by omega)

theorem upperChar_eq_self {c : Char} (h : ¬(97 ≤ c.toNat ∧ c.toNat ≤ 122)) :
    upperChar c = c := by
  unfold upperChar
  rw [if_neg h]

theorem upperChar_idem (c : Char) : upperChar (upperChar c) = upperChar c := by
  by_cases h : 97 ≤ c.toNat ∧ c.toNat ≤ 122
  · have h1 : (upperChar c).toNat = c.toNat - 32 := upperChar_toNat_of_lower h
    exact upperChar_eq_self (by omega)
  · rw [upperChar_eq_self h, upperChar_eq_self h]

/-- A string is upper-invariant when upper-casing fixes every character. -/
def UpperInv (s : PyStr) : Prop := ∀ c ∈ s, upperChar c = c

theorem upperInv_pyUpper (s : PyStr) : UpperInv (pyUpper s) := by
  intro c hc
  simp only [pyUpper, List.mem_map] at hc
  obtain ⟨d, _, rfl⟩ := hc
  exact upperChar_idem d

theorem pyUpper_eq_self {s : PyStr} (h : UpperInv s) : pyUpper s = s := by
  induction s with
  | nil => rfl
  | cons c rest ih =>
    simp only [pyUpper, List.map_cons, List.map] at *
    refine List.cons_eq_cons.mpr ⟨h c (List.mem_cons_self c rest), ?_⟩
    exact ih fun d hd => h d (List.mem_cons_of_mem c hd)

theorem upperInv_append {s t : PyStr} (hs : UpperInv s) (ht : UpperInv t) :
    UpperInv (s ++ t) := by
  intro c hc
  rcases List.mem_append.mp hc with h | h
  · exact hs c h
  · exact ht c h

theorem upperInv_of_sublist {s t : PyStr} (h : ∀ c ∈ s, c ∈ t) (ht : UpperInv t) :
    UpperInv s := fun c hc => ht c (h c hc)

theorem mem_pyReplaceGo {old new : PyStr} {c : Char} :
    ∀ {fuel : Nat} {s : PyStr}, c ∈ pyReplaceGo old new fuel s → c ∈ new ∨ c ∈ s := by
  intro fuel
  induction fuel with
  | zero => exact fun h => Or.inr h
  | succ fuel ih =>
    intro s h
    match s with
    | [] => simpa [pyReplaceGo] using h
    | d :: rest =>
      rw [pyReplaceGo] at h
      split at h
      · rcases List.mem_append.mp h with h1 | h1
        · exact Or.inl h1
        · rcases ih h1 with h2 | h2
          · exact Or.inl h2
          · exact Or.inr (List.mem_of_mem_drop h2)
      · rcases List.mem_cons.mp h with h1 | h1
        · exact Or.inr (h1 ▸ List.mem_cons_self d rest)
        · rcases ih h1 with h2 | h2
          · exact Or.inl h2
          · exact Or.inr (List.mem_cons_of_mem d h2)

theorem mem_pyReplace {old new s : PyStr} {c : Char} (h : c ∈ pyReplace old new s) :
    c ∈ new ∨ c ∈ s := mem_pyReplaceGo h

theorem upperInv_pyReplace {old new s : PyStr} (hnew : UpperInv new) (hs : UpperInv s) :
    UpperInv (pyReplace old new s) := by
  intro c hc
  rcases mem_pyReplace hc with h | h
  · exact hnew c h
  · exact hs c h

/-- The substring relation, as a proposition. -/
def SubstrP (needle s : PyStr) : Prop := ∃ p q, s = p ++ needle ++ q

theorem isSubstr_iff (needle s : PyStr) : isSubstr needle s = true ↔ SubstrP needle s := by
  induction s with
  | nil =>
    simp only [isSubstr, List.isEmpty_iff, SubstrP]
    constructor
    · rintro rfl
      exact ⟨[], [], rfl⟩
    · rintro ⟨p, q, hpq⟩
      have hl := congrArg List.length hpq
      simp [List.length_append] at hl
      exact List.length_eq_zero.mp (by omega)
  | cons c rest ih =>
    simp only [isSubstr, Bool.or_eq_true, ih]
    constructor
    · rintro (h | ⟨p, q, rfl⟩)
      · obtain ⟨t, ht⟩ := List.isPrefixOf_iff_prefix.mp h
        exact ⟨[], t, by simp [ht.symm]⟩
      · exact ⟨c :: p, q, by simp⟩
    · rintro ⟨p, q, hpq⟩
      cases p with
      | nil =>
        left
        refine List.isPrefixOf_iff_prefix.mpr ⟨q, ?_⟩
        simpa using hpq.symm
      | cons d p₂ =>
        right
        refine ⟨p₂, q, ?_⟩
        have : d = c ∧ p₂ ++ needle ++ q = rest := by
          constructor
          · exact (List.cons_eq_cons.mp (by simpa using hpq.symm)).1
          · simpa using (List.cons_eq_cons.mp (by simpa using hpq.symm)).2
        exact this.2.symm

theorem substr_absent_of_extension {a b s : PyStr}
    (hab : ∃ u v, b = u ++ a ++ v) (h : isSubstr a s = false) :
    isSubstr b s = false := by
  by_contra hb
  rw [Bool.not_eq_false, isSubstr_iff] at hb
  obtain ⟨p, q, rfl⟩ := hb
  obtain ⟨u, v, rfl⟩ := hab
  have : isSubstr a ((p ++ u) ++ a ++ (v ++ q)) = true := by
    rw [isSubstr_iff]
    exact ⟨p ++ u, v ++ q, by simp⟩
  rw [show (p ++ u) ++ a ++ (v ++ q) = p ++ (u ++ a ++ v) ++ q by simp] at this
  rw [h] at this
  exact Bool.false_ne_true this

theorem pyReplaceGo_of_not_substr {old new : PyStr} :
    ∀ {fuel : Nat} {s : PyStr}, isSubstr old s = false →
      pyReplaceGo old new fuel s = s := by
  intro fuel
  induction fuel with
  | zero => intro s _; rfl
  | succ fuel ih =>
    intro s h
    match s with
    | [] => rfl
    | d :: rest =>
      rw [pyReplaceGo]
      have hnotpre : ¬(old ≠ [] ∧ old.isPrefixOf (d :: rest)) := by
        rintro ⟨-, hpre⟩
        obtain ⟨t, ht⟩ := List.isPrefixOf_iff_prefix.mp hpre
        have : isSubstr old (d :: rest) = true := by
          rw [isSubstr_iff]
          exact ⟨[], t, by simp [ht.symm]⟩
        rw [h] at this
        exact Bool.false_ne_true this
      rw [if_neg hnotpre]
      have hrest : isSubstr old rest = false := by
        by_contra hr
        rw [Bool.not_eq_false, isSubstr_iff] at hr
        obtain ⟨p, q, rfl⟩ := hr
        have : isSubstr old (d :: (p ++ old ++ q)) = true := by
          rw [isSubstr_iff]
          exact ⟨d :: p, q, by simp⟩
        rw [h] at this
        exact Bool.false_ne_true this
      rw [ih hrest]

theorem pyReplace_of_not_substr {old new s : PyStr} (h : isSubstr old s = false) :
    pyReplace old new s = s := pyReplaceGo_of_not_substr h

/-
URL Canonicalizer — src/utils/utils.py, `_resolve_url_database` and
`resolve_url_database`.
-/

def httpsWwwPat : PyStr := "HTTPS://WWW.".toList

def httpWwwPat : PyStr := "HTTP://WWW.".toList

def httpsPat : PyStr := "HTTPS://".toList

def httpPat : PyStr := "HTTP://".toList

def wwwDotPat : PyStr := "WWW.".toList

def wcgBoincPat : PyStr := "WORLDCOMMUNITYGRID.ORG/BOINC".toList

def wcgCanonical : PyStr := "WORLDCOMMUNITYGRID.ORG".toList

/-- Models `_resolve_url_database` (utils.py:27): operates on an already
upper-cased string; strips scheme spellings, a leading `WWW.`, one trailing
slash, and collapses the WCG legacy alias. -/
def resolve_url_database_uppered (uppered : PyStr) : PyStr :=
  let c1 := pyReplace httpsWwwPat [] uppered
  let c2 := pyReplace httpWwwPat [] c1
  let c3 := pyReplace httpsPat [] c2
  let c4 := pyReplace httpPat [] c3
  let c5 := if wwwDotPat.isPrefixOf c4 then pyReplace wwwDotPat [] c4 else c4
  let c6 := if pyEndsWithChar '/' c5 then c5.dropLast else c5
  if isSubstr wcgBoincPat c6 then wcgCanonical else c6

/-- Models `resolve_url_database` (utils.py:49). -/
def resolve_url_database (url : PyStr) : PyStr :=
  resolve_url_database_uppered (pyUpper url)

theorem upperInv_wwwStep {s : PyStr} (hs : UpperInv s) :
    UpperInv (if wwwDotPat.isPrefixOf s then pyReplace wwwDotPat [] s else s) := by
  have hempty : UpperInv ([] : PyStr) := fun c hc => absurd hc (List.not_mem_nil c)
  split
  · exact upperInv_pyReplace hempty hs
  · exact hs

theorem upperInv_slashStep {s : PyStr} (hs : UpperInv s) :
    UpperInv (if pyEndsWithChar '/' s then s.dropLast else s) := by
  split
  · exact upperInv_of_sublist (fun c hc => (List.dropLast_sublist _).subset hc) hs
  · exact hs

theorem upperInv_wcgStep {s : PyStr} (hs : UpperInv s) :
    UpperInv (if isSubstr wcgBoincPat s then wcgCanonical else s) := by
  split
  · unfold UpperInv
    decide
  · exact hs

theorem upperInv_resolve_uppered {u : PyStr} (hu : UpperInv u) :
    UpperInv (resolve_url_database_uppered u) := by
  have hempty : UpperInv ([] : PyStr) := fun c hc => absurd hc (List.not_mem_nil c)
  exact upperInv_wcgStep (upperInv_slashStep (upperInv_wwwStep
    (upperInv_pyReplace hempty (upperInv_pyReplace hempty
      (upperInv_pyReplace hempty (upperInv_pyReplace hempty hu))))))

theorem wcgStep_not_substr (s : PyStr) :
    isSubstr wcgBoincPat (if isSubstr wcgBoincPat s then wcgCanonical else s) = false := by
  by_cases h : isSubstr wcgBoincPat s = true
  · rw [if_pos h]
    decide
  · rw [if_neg h]
    simpa using h

theorem wcg_not_substr_resolve (u : PyStr) :
    isSubstr wcgBoincPat (resolve_url_database_uppered u) = false := by
  unfold resolve_url_database_uppered
  simp only []
  exact wcgStep_not_substr _

theorem resolve_fixed_point (y : PyStr) (hy : UpperInv y)
    (h1 : isSubstr httpsPat y = false) (h2 : isSubstr httpPat y = false)
    (h3 : wwwDotPat.isPrefixOf y = false) (h4 : pyEndsWithChar '/' y = false)
    (h5 : isSubstr wcgBoincPat y = false) :
    resolve_url_database y = y := by
  have e1 : pyReplace httpsWwwPat [] y = y :=
    pyReplace_of_not_substr
      (substr_absent_of_extension ⟨[], "WWW.".toList, by decide⟩ h1)
  have e2 : pyReplace httpWwwPat [] y = y :=
    pyReplace_of_not_substr
      (substr_absent_of_extension ⟨[], "WWW.".toList, by decide⟩ h2)
  have e3 : pyReplace httpsPat [] y = y := pyReplace_of_not_substr h1
  have e4 : pyReplace httpPat [] y = y := pyReplace_of_not_substr h2
  unfold resolve_url_database
  rw [pyUpper_eq_self hy]
  unfold resolve_url_database_uppered
  simp only [e1, e2, e3, e4, h3, h4, h5, Bool.false_eq_true, if_false]

/-- C2, counterexample: URL canonicalization is not idempotent on every
input string; on `"a//"` one application strips a single trailing slash
yielding `"A/"`, a second application strips another. -/
theorem resolve_url_database_not_idem :
    ¬ (resolve_url_database (resolve_url_database ("a//".toList)) =
       resolve_url_database ("a//".toList)) := by decide

/-- C2, amended: canonicalization is idempotent on every input whose
canonical form contains no scheme spelling, no leading `WWW.`, and no
trailing slash (one application strips only one trailing slash, so strings
canonicalizing to a slash-terminated key are not fixed points); moreover it
is case-insensitive: `"https://WWW.Example.com/a/"` and `"example.com/a"`
canonicalize to the identical key. -/
theorem resolve_url_database_idem_amended (x : PyStr)
    (h1 : isSubstr httpsPat (resolve_url_database x) = false)
    (h2 : isSubstr httpPat (resolve_url_database x) = false)
    (h3 : wwwDotPat.isPrefixOf (resolve_url_database x) = false)
    (h4 : pyEndsWithChar '/' (resolve_url_database x) = false) :
    resolve_url_database (resolve_url_database x) = resolve_url_database x ∧
    resolve_url_database ("https://WWW.Example.com/a/".toList) =
      resolve_url_database ("example.com/a".toList) := by
  constructor
  · exact resolve_fixed_point _ (upperInv_resolve_uppered (upperInv_pyUpper x))
      h1 h2 h3 h4 (wcg_not_substr_resolve (pyUpper x))
  · decide

/-- C2, witness: the amended idempotency theorem applied to the concrete
URL `"https://WWW.Example.com/a/"`. -/
theorem resolve_url_database_idem_amended_witness :
    resolve_url_database (resolve_url_database ("https://WWW.Example.com/a/".toList)) =
      resolve_url_database ("https://WWW.Example.com/a/".toList) :=
  (resolve_url_database_idem_amended ("https://WWW.Example.com/a/".toList)
    (by decide) (by decide) (by decide) (by decide)).1

/-
Log State Classifier — src/utils/BoincClientConnection.py,
`cache_full` (line 609) and `project_backoff` (line 722).
-/

/-- The ASCII apostrophe, kept out of string literals. -/
def apoC : Char := Char.ofNat 39

/-- One BOINC client log message: `{time, body, project}`.  The timestamp
is modelled as epoch seconds (the source holds a `datetime`). -/
structure LogMessage where
  time : Int
  body : PyStr
  project : PyStr
deriving DecidableEq

/-- Decimal rendering of an integer, for the textual form of a message. -/
def intRepr (n : Int) : PyStr :=
  if n < 0 then '-' :: Nat.toDigits 10 n.natAbs else Nat.toDigits 10 n.natAbs

/-- Models Python `str(message)`: the dict rendering
`{'time': ..., 'body': '...', 'project': '...'}` (the source renders the
timestamp as a `datetime` repr; here it renders as its epoch numeral — the
claims under check never depend on the timestamp's textual form). -/
def msgStr (m : LogMessage) : PyStr :=
  Char.ofNat 123 ::
    (apoC :: ("time".toList ++ [apoC] ++ (": ".toList) ++ intRepr m.time
     ++ (", ".toList) ++ [apoC] ++ ("body".toList) ++ [apoC] ++ (": ".toList)
     ++ [apoC] ++ m.body ++ [apoC]
     ++ (", ".toList) ++ [apoC] ++ ("project".toList) ++ [apoC] ++ (": ".toList)
     ++ [apoC] ++ m.project ++ [apoC]
     ++ [Char.ofNat 125]))

/-- The `seconds` component of a Python `timedelta` holding `d` total
seconds: `timedelta` normalizes so that `0 ≤ seconds < 86400`, the sign
going into `days`. -/
def timedeltaSeconds (d : Int) : Int := Int.emod d 86400

def viaManagerPhrase : PyStr :=
  "NOT REQUESTING TASKS: \"NO NEW TASKS\" REQUESTED VIA MANAGER".toList

def cpuJobCacheFullPhrase : PyStr := "CPU: JOB CACHE FULL".toList

def dontNeedJobCacheFullPhrase : PyStr :=
  "NOT REQUESTING TASKS: DON".toList ++ apoC :: "T NEED (JOB CACHE FULL)".toList

def dontNeedPhrase : PyStr :=
  "NOT REQUESTING TASKS: DON".toList ++ apoC :: "T NEED".toList

def gpuJobCacheFullPhrase : PyStr := "GPU: JOB CACHE FULL".toList

def gpusNotUsablePhrase : PyStr := "GPUS NOT USABLE".toList

def gpuWord : PyStr := "GPU".toList

/-- One iteration of the message loop of `cache_full`
(BoincClientConnection.py:617-675), acting on the `(cpu_full, gpu_full)`
flag pair.  Branches of the source that only log (`pass`/`log.debug`/
`log.warning`, and the `ignore_message_from_check_log_entries` arm) leave
the flags unchanged and are collapsed to the identity. -/
def cacheFullStep (upProject : PyStr) (now : Int) (st : Bool × Bool)
    (m : LogMessage) : Bool × Bool :=
  if isSubstr upProject (pyUpper (msgStr m)) = false then st
  else if 300 < timedeltaSeconds (now - m.time) then st
  else
    let ub := pyUpper m.body
    if isSubstr viaManagerPhrase ub then st
    else if pyUpper m.project = upProject then
      let cpu1 := st.1 || isSubstr cpuJobCacheFullPhrase ub
                      || isSubstr dontNeedJobCacheFullPhrase ub
      if isSubstr dontNeedPhrase ub then
        let gpu1 := st.2 || !(isSubstr gpuWord ub)
        let cpu2 := cpu1 || isSubstr cpuJobCacheFullPhrase ub
                         || isSubstr dontNeedJobCacheFullPhrase ub
        let gpu2 := gpu1 || isSubstr gpuJobCacheFullPhrase ub
                         || isSubstr gpusNotUsablePhrase ub
        (cpu2, gpu2)
      else (cpu1, st.2)
    else st

/-- Models `cache_full(project_name, messages)` evaluated at time `now`
(the source reads `datetime.datetime.now()`). -/
def cache_full (project_name : PyStr) (msgs : List LogMessage) (now : Int) : Bool :=
  let st := msgs.foldl (cacheFullStep (pyUpper project_name) now) (false, false)
  st.1 && st.2

def backoffPositivePhrases : List PyStr :=
  [("PROJECT HAS NO TASKS AVAILABLE".toList),
   ("SCHEDULER REQUEST FAILED".toList),
   ("NO TASKS SENT".toList),
   ("LAST REQUEST TOO RECENT".toList),
   ("AN NVIDIA GPU IS REQUIRED TO RUN TASKS FOR THIS PROJECT".toList)]

def backoffNegativePhrases : List PyStr :=
  [dontNeedPhrase,
   ("STARTED DOWNLOAD".toList),
   ("FINISHED DOWNLOAD OF".toList)]

def backoffIgnorePhrases : List PyStr :=
  [("WORK FETCH RESUMED BY USER".toList),
   ("UPDATE REQUESTED BY USER".toList),
   ("WORK FETCH SUSPENDED BY USER".toList),
   ("STARTING TASK".toList),
   ("REQUESTING NEW TASKS".toList),
   ("SENDING SCHEDULER REQUEST".toList),
   ("SCHEDULER REQUEST COMPLETED".toList),
   ("STARTED UPLOAD".toList),
   ("FINISHED UPLOAD".toList),
   ("MASTER FILE DOWNLOAD SUCCEEDED".toList),
   ("FETCHING SCHEDULER LIST".toList),
   ("UPGRADE TO THE LATEST DRIVER TO PROCESS TASKS USING YOUR COMPUTER".toList
      ++ apoC :: "S GPU".toList),
   ("NOT STARTED AND DEADLINE HAS PASSED".toList),
   ("PROJECT REQUESTED DELAY OF".toList)]

/-- Models `backoff_ignore_message(message, ignore_phrases)`
(BoincClientConnection.py:705). -/
def backoff_ignore_message (m : LogMessage) (ignorePhrases : List PyStr) : Bool :=
  let ub := pyUpper m.body
  ignorePhrases.any (fun p => isSubstr p ub)
  || (isSubstr ("GOT".toList) ub && isSubstr ("NEW TASKS".toList) ub)
  || (isSubstr ("REPORTING".toList) ub && isSubstr ("COMPLETED TASKS".toList) ub)
  || (isSubstr ("COMPUTATION FOR TASK".toList) ub && isSubstr ("FINISHED".toList) ub)

/-- The message scan of `project_backoff` (BoincClientConnection.py:760-795):
first positive phrase returns true, first negative phrase returns false,
the composite needs-but-only condition returns true, otherwise the scan
continues and defaults to false. -/
def projectBackoffGo (up : PyStr) (now : Int) : List LogMessage → Bool
  | [] => false
  | m :: rest =>
    if isSubstr up (pyUpper (msgStr m)) = false then projectBackoffGo up now rest
    else if 300 < timedeltaSeconds (now - m.time) then projectBackoffGo up now rest
    else if backoff_ignore_message m backoffIgnorePhrases then projectBackoffGo up now rest
    else
      let ub := pyUpper m.body
      if backoffPositivePhrases.any (fun p => isSubstr p ub) then true
      else if backoffNegativePhrases.any (fun p => isSubstr p ub) then false
      else if isSubstr ("NEEDS".toList) ub && isSubstr ("BUT ONLY".toList) ub
              && isSubstr ("IS AVAILABLE FOR USE".toList) ub then true
      else projectBackoffGo up now rest

/-- Models `project_backoff(project_name, messages)` evaluated at `now`. -/
def project_backoff (project_name : PyStr) (msgs : List LogMessage) (now : Int) : Bool :=
  projectBackoffGo (pyUpper project_name) now msgs

/-- A body carrying a CPU-full signal for `cache_full`. -/
def cpuSignalB (m : LogMessage) : Bool :=
  isSubstr cpuJobCacheFullPhrase (pyUpper m.body)
  || isSubstr dontNeedJobCacheFullPhrase (pyUpper m.body)

/-- A body carrying a GPU-full (or no-GPU) signal for `cache_full`. -/
def gpuSignalB (m : LogMessage) : Bool :=
  isSubstr dontNeedPhrase (pyUpper m.body)
  && (!(isSubstr gpuWord (pyUpper m.body))
      || isSubstr gpuJobCacheFullPhrase (pyUpper m.body)
      || isSubstr gpusNotUsablePhrase (pyUpper m.body))

theorem cacheFullStep_eq (up : PyStr) (now : Int) (st : Bool × Bool) (m : LogMessage) :
    cacheFullStep up now st m =
    (if isSubstr up (pyUpper (msgStr m)) = false then st
     else if 300 < timedeltaSeconds (now - m.time) then st
     else if isSubstr viaManagerPhrase (pyUpper m.body) then st
     else if pyUpper m.project = up then
       (if isSubstr dontNeedPhrase (pyUpper m.body) then
          ((st.1 || isSubstr cpuJobCacheFullPhrase (pyUpper m.body)
                || isSubstr dontNeedJobCacheFullPhrase (pyUpper m.body))
               || isSubstr cpuJobCacheFullPhrase (pyUpper m.body)
               || isSubstr dontNeedJobCacheFullPhrase (pyUpper m.body),
           (st.2 || !(isSubstr gpuWord (pyUpper m.body)))
               || isSubstr gpuJobCacheFullPhrase (pyUpper m.body)
               || isSubstr gpusNotUsablePhrase (pyUpper m.body))
        else (st.1 || isSubstr cpuJobCacheFullPhrase (pyUpper m.body)
                  || isSubstr dontNeedJobCacheFullPhrase (pyUpper m.body), st.2))
     else st) := rfl

theorem cacheFullStep_tag_ne {up : PyStr} {now : Int} {st : Bool × Bool}
    {m : LogMessage} (h : ¬(pyUpper m.project = up)) :
    cacheFullStep up now st m = st := by
  rw [cacheFullStep_eq, if_neg h]
  split
  · rfl
  · split
    · rfl
    · split
      · rfl
      · rfl

theorem cacheFullStep_fst_true {up : PyStr} {now : Int} {st : Bool × Bool}
    {m : LogMessage} (h : (cacheFullStep up now st m).1 = true) :
    st.1 = true ∨ (pyUpper m.project = up ∧
      timedeltaSeconds (now - m.time) ≤ 300 ∧ cpuSignalB m = true) := by
  rw [cacheFullStep_eq] at h
  split at h
  · exact Or.inl h
  · split at h
    · exact Or.inl h
    · next htime =>
      split at h
      · exact Or.inl h
      · split at h
        · next htag =>
          split at h
          · simp only [Bool.or_eq_true] at h
            rcases h with ((h1 | h1) | h1) | h1
            · rcases h1 with h1 | h1
              · exact Or.inl h1
              · exact Or.inr ⟨htag, by omega, by
                  simp only [cpuSignalB, Bool.or_eq_true]; exact Or.inl h1⟩
            · exact Or.inr ⟨htag, by omega, by
                simp only [cpuSignalB, Bool.or_eq_true]; exact Or.inr h1⟩
            · exact Or.inr ⟨htag, by omega, by
                simp only [cpuSignalB, Bool.or_eq_true]; exact Or.inl h1⟩
            · exact Or.inr ⟨htag, by omega, by
                simp only [cpuSignalB, Bool.or_eq_true]; exact Or.inr h1⟩
          · simp only [Bool.or_eq_true] at h
            rcases h with (h1 | h1) | h1
            · exact Or.inl h1
            · exact Or.inr ⟨htag, by omega, by
                simp only [cpuSignalB, Bool.or_eq_true]; exact Or.inl h1⟩
            · exact Or.inr ⟨htag, by omega, by
                simp only [cpuSignalB, Bool.or_eq_true]; exact Or.inr h1⟩
        · exact Or.inl h

theorem cacheFullStep_snd_true {up : PyStr} {now : Int} {st : Bool × Bool}
    {m : LogMessage} (h : (cacheFullStep up now st m).2 = true) :
    st.2 = true ∨ (pyUpper m.project = up ∧
      timedeltaSeconds (now - m.time) ≤ 300 ∧ gpuSignalB m = true) := by
  rw [cacheFullStep_eq] at h
  split at h
  · exact Or.inl h
  · split at h
    · exact Or.inl h
    · next htime =>
      split at h
      · exact Or.inl h
      · split at h
        · next htag =>
          split at h
          · next hdn =>
            simp only [Bool.or_eq_true] at h
            rcases h with (h1 | h1) | h1
            · rcases h1 with h1 | h1
              · exact Or.inl h1
              · exact Or.inr ⟨htag, by omega, by
                  simp only [gpuSignalB, Bool.and_eq_true, Bool.or_eq_true]
                  exact ⟨hdn, Or.inl (Or.inl h1)⟩⟩
            · exact Or.inr ⟨htag, by omega, by
                simp only [gpuSignalB, Bool.and_eq_true, Bool.or_eq_true]
                exact ⟨hdn, Or.inl (Or.inr h1)⟩⟩
            · exact Or.inr ⟨htag, by omega, by
                simp only [gpuSignalB, Bool.and_eq_true, Bool.or_eq_true]
                exact ⟨hdn, Or.inr h1⟩⟩
          · exact Or.inl h
        · exact Or.inl h

theorem foldl_eq_foldl_filter {α β : Type _} (step : β → α → β) (pred : α → Bool)
    (hid : ∀ st a, pred a = false → step st a = st) :
    ∀ (l : List α) (init : β), l.foldl step init = (l.filter pred).foldl step init := by
  intro l
  induction l with
  | nil => intro init; rfl
  | cons a rest ih =>
    intro init
    cases hp : pred a with
    | true => rw [List.foldl_cons, List.filter_cons_of_pos hp, List.foldl_cons, ih]
    | false => rw [List.foldl_cons, hid init a hp, List.filter_cons_of_neg (by simp [hp]), ih]

theorem foldl_cacheFullStep_fst {up : PyStr} {now : Int} :
    ∀ (l : List LogMessage) (st : Bool × Bool),
      (l.foldl (cacheFullStep up now) st).1 = true →
      st.1 = true ∨ ∃ m ∈ l, pyUpper m.project = up ∧
        timedeltaSeconds (now - m.time) ≤ 300 ∧ cpuSignalB m = true := by
  intro l
  induction l with
  | nil => exact fun st h => Or.inl h
  | cons m rest ih =>
    intro st h
    rw [List.foldl_cons] at h
    rcases ih (cacheFullStep up now st m) h with h1 | ⟨m', hm', hp⟩
    · rcases cacheFullStep_fst_true h1 with h2 | h2
      · exact Or.inl h2
      · exact Or.inr ⟨m, List.mem_cons_self m rest, h2⟩
    · exact Or.inr ⟨m', List.mem_cons_of_mem m hm', hp⟩

theorem foldl_cacheFullStep_snd {up : PyStr} {now : Int} :
    ∀ (l : List LogMessage) (st : Bool × Bool),
      (l.foldl (cacheFullStep up now) st).2 = true →
      st.2 = true ∨ ∃ m ∈ l, pyUpper m.project = up ∧
        timedeltaSeconds (now - m.time) ≤ 300 ∧ gpuSignalB m = true := by
  intro l
  induction l with
  | nil => exact fun st h => Or.inl h
  | cons m rest ih =>
    intro st h
    rw [List.foldl_cons] at h
    rcases ih (cacheFullStep up now st m) h with h1 | ⟨m', hm', hp⟩
    · rcases cacheFullStep_snd_true h1 with h2 | h2
      · exact Or.inl h2
      · exact Or.inr ⟨m, List.mem_cons_self m rest, h2⟩
    · exact Or.inr ⟨m', List.mem_cons_of_mem m hm', hp⟩

/-- C3: the five-minute staleness filter is implemented with the `seconds`
component of the `timedelta` (`difference.seconds`), not its total length,
so a message exactly one day old — far older than five minutes — still
drives both `cache_full` and `project_backoff`, contradicting the code's
own comment (`# If message is > 5 min old, skip`): with the stale message
removed both classifiers flip their verdict. -/
theorem stale_message_affects_classifiers :
    cache_full ("ALPHA".toList)
      [⟨913600, dontNeedJobCacheFullPhrase, "ALPHA".toList⟩] 1000000 = true ∧
    cache_full ("ALPHA".toList) [] 1000000 = false ∧
    project_backoff ("ALPHA".toList)
      [⟨913600, ("ALPHA: NO TASKS SENT".toList), "ALPHA".toList⟩] 1000000 = true ∧
    project_backoff ("ALPHA".toList) [] 1000000 = false :=
  ⟨by decide, by decide, by decide, by decide⟩

/-- C8, counterexample: `cache_full` can return true although no message
lies within the five-minute window — a single message exactly two days old
(the `timedelta.seconds` component wraps to zero) carries both signals. -/
theorem cache_full_outside_window :
    cache_full ("BETA".toList)
      [⟨827200, dontNeedJobCacheFullPhrase, "BETA".toList⟩] 1000000 = true ∧
    (1000000 : Int) - 827200 > 300 :=
  ⟨by decide, by decide⟩

/-- C8, amended: `cache_full` enjoys cross-project isolation — two message
lists with the same subsequence of messages tagged with project `p` yield
the same verdict — and it returns true only when some `p`-tagged message
whose age has `timedelta.seconds` component at most 300 (rather than: age
at most 300 seconds) carries a CPU-full signal and some such message
carries a GPU-full-or-no-GPU signal. -/
theorem cache_full_isolation_amended (p : PyStr) (now : Int) (l1 l2 : List LogMessage)
    (hf : l1.filter (fun m => pyUpper m.project == pyUpper p) =
          l2.filter (fun m => pyUpper m.project == pyUpper p)) :
    cache_full p l1 now = cache_full p l2 now ∧
    (cache_full p l1 now = true →
      (∃ m ∈ l1, pyUpper m.project = pyUpper p ∧
        timedeltaSeconds (now - m.time) ≤ 300 ∧ cpuSignalB m = true) ∧
      (∃ m ∈ l1, pyUpper m.project = pyUpper p ∧
        timedeltaSeconds (now - m.time) ≤ 300 ∧ gpuSignalB m = true)) := by
  have hid : ∀ (st : Bool × Bool) (m : LogMessage),
      (fun m => pyUpper m.project == pyUpper p) m = false →
      cacheFullStep (pyUpper p) now st m = st := by
    intro st m hm
    simp only [beq_eq_false_iff_ne, ne_eq] at hm
    exact cacheFullStep_tag_ne hm
  constructor
  · unfold cache_full
    rw [foldl_eq_foldl_filter _ _ hid l1, foldl_eq_foldl_filter _ _ hid l2, hf]
  · intro h
    unfold cache_full at h
    rw [Bool.and_eq_true] at h
    constructor
    · rcases foldl_cacheFullStep_fst l1 (false, false) h.1 with h1 | h1
      · exact absurd h1 (by decide)
      · exact h1
    · rcases foldl_cacheFullStep_snd l1 (false, false) h.2 with h1 | h1
      · exact absurd h1 (by decide)
      · exact h1

/-- C8, witness: the amended theorem applied to concrete message lists that
differ only in a `DELTA`-tagged message, evaluated for project `GAMMA`. -/
theorem cache_full_isolation_amended_witness :
    cache_full ("GAMMA".toList)
      [⟨999900, dontNeedJobCacheFullPhrase, "GAMMA".toList⟩,
       ⟨999900, ("NO TASKS SENT".toList), "DELTA".toList⟩] 1000000 =
    cache_full ("GAMMA".toList)
      [⟨999900, dontNeedJobCacheFullPhrase, "GAMMA".toList⟩] 1000000 :=
  (cache_full_isolation_amended ("GAMMA".toList) 1000000
    [⟨999900, dontNeedJobCacheFullPhrase, "GAMMA".toList⟩,
     ⟨999900, ("NO TASKS SENT".toList), "DELTA".toList⟩]
    [⟨999900, dontNeedJobCacheFullPhrase, "GAMMA".toList⟩] (by decide)).1

/-
Resilient RPC Access Layer — src/utils/GridcoinClientConnection.py
`GridcoinClientConnection.run_command` (line 72) and
src/utils/BoincClientConnection.py `run_rpc_command` (line 64).
The environment is modelled by the list of outcomes the transport would
produce on the successive attempts: `raise` for a transport-level
exception (including an unparseable response, which raises inside
`response.json()` / `parse_generic`), `ok v` for a parsed value.
-/

/-- A parsed RPC response value (scalar JSON universe; composite values
behave like the non-falsy, nonempty-rendering cases). -/
inductive RVal where
  | vnone
  | vbool (b : Bool)
  | vnum (n : Int)
  | vstr (s : PyStr)
deriving DecidableEq

/-- Models Python `str(value)`. -/
def pyStrOfRVal : RVal → PyStr
  | .vnone => "None".toList
  | .vbool true => "True".toList
  | .vbool false => "False".toList
  | .vnum n => intRepr n
  | .vstr s => s

/-- Models Python truthiness of a parsed value. -/
def isFalsyR : RVal → Bool
  | .vnone => true
  | .vbool b => !b
  | .vnum n => n == 0
  | .vstr s => s.isEmpty

/-- Observable events of a retry loop: the sleep before an attempt and the
attempt itself (numbered from 0). -/
inductive REvent where
  | sleepEv (d : Int)
  | attemptEv (i : Nat)
deriving DecidableEq

/-- What the transport does on one attempt. -/
inductive AttemptResult where
  | raise
  | ok (v : RVal)
deriving DecidableEq

/-- The retry loop of `GridcoinClientConnection.run_command`: sleep, then
attempt; an exception moves on to the next attempt, any parsed value —
falsy or not — is returned at once. -/
def runCommandGo (delay : Int) (outcomes : List AttemptResult) :
    Nat → Nat → List REvent × Option RVal
  | 0, _ => ([], none)
  | fuel + 1, i =>
    match outcomes.getD i .raise with
    | .raise =>
      let r := runCommandGo delay outcomes fuel (i + 1)
      (REvent.sleepEv delay :: REvent.attemptEv i :: r.1, r.2)
    | .ok v => ([REvent.sleepEv delay, REvent.attemptEv i], some v)

/-- Models `GridcoinClientConnection.run_command` with the connection's
`retries` and `retry_delay`, returning the event trace and the result
(`none` models returning Python `None` after exhausting the budget). -/
def run_command (retries : Nat) (retry_delay : Int)
    (outcomes : List AttemptResult) : List REvent × Option RVal :=
  runCommandGo retry_delay outcomes retries 0

/-- The retry loop of `run_rpc_command`: sleep 5, attempt; an exception or
a parsed value whose string form is empty (`if not str(parsed)`) moves on
to the next attempt, anything else is returned. -/
def runRpcGo (outcomes : List AttemptResult) :
    Nat → Nat → List REvent × Option RVal
  | 0, _ => ([], none)
  | fuel + 1, i =>
    match outcomes.getD i .raise with
    | .raise =>
      let r := runRpcGo outcomes fuel (i + 1)
      (REvent.sleepEv 5 :: REvent.attemptEv i :: r.1, r.2)
    | .ok v =>
      if (pyStrOfRVal v).isEmpty then
        let r := runRpcGo outcomes fuel (i + 1)
        (REvent.sleepEv 5 :: REvent.attemptEv i :: r.1, r.2)
      else ([REvent.sleepEv 5, REvent.attemptEv i], some v)

/-- Models `run_rpc_command` with its hard-coded `max_retries = 3` and
`retry_wait = 5`. -/
def run_rpc_command (outcomes : List AttemptResult) : List REvent × Option RVal :=
  runRpcGo outcomes 3 0

/-- Spec-side: does this outcome make `run_command` move to the next
attempt?  Only an exception does. -/
def gridRetries (o : AttemptResult) : Bool :=
  match o with
  | .raise => true
  | .ok _ => false

/-- Spec-side: does this outcome make `run_rpc_command` move to the next
attempt?  An exception, or a value rendering as the empty string. -/
def rpcRetries (o : AttemptResult) : Bool :=
  match o with
  | .raise => true
  | .ok v => (pyStrOfRVal v).isEmpty

/-- Spec-side: the first attempt index (within the fuel, starting at `i`)
whose outcome is accepted under the retry policy `retryP`, with its value. -/
def firstAcceptedGo (retryP : AttemptResult → Bool) (outcomes : List AttemptResult) :
    Nat → Nat → Option (Nat × RVal)
  | 0, _ => none
  | fuel + 1, i =>
    match outcomes.getD i .raise with
    | .raise => firstAcceptedGo retryP outcomes fuel (i + 1)
    | .ok v =>
      if retryP (.ok v) then firstAcceptedGo retryP outcomes fuel (i + 1)
      else some (i, v)

/-- Spec-side: the trace of a loop that performs `n` attempts starting at
index `start`, sleeping `delay` immediately before every attempt. -/
def sleepAttemptBlocks (delay : Int) (start : Nat) : Nat → List REvent
  | 0 => []
  | n + 1 => REvent.sleepEv delay :: REvent.attemptEv start ::
      sleepAttemptBlocks delay (start + 1) n

theorem firstAcceptedGo_ge {retryP : AttemptResult → Bool}
    {outcomes : List AttemptResult} :
    ∀ {fuel i k : Nat} {v : RVal},
      firstAcceptedGo retryP outcomes fuel i = some (k, v) → i ≤ k := by
  intro fuel
  induction fuel with
  | zero => intro i k v h; simp [firstAcceptedGo] at h
  | succ fuel ih =>
    intro i k v h
    cases ho : outcomes.getD i .raise with
    | raise =>
      simp only [firstAcceptedGo, ho] at h
      exact Nat.le_of_succ_le (ih h)
    | ok w =>
      simp only [firstAcceptedGo, ho] at h
      split at h
      · exact Nat.le_of_succ_le (ih h)
      · simp only [Option.some.injEq, Prod.mk.injEq] at h
        exact Nat.le_of_eq h.1

theorem runCommandGo_spec (delay : Int) (outcomes : List AttemptResult) :
    ∀ (fuel i : Nat),
      runCommandGo delay outcomes fuel i =
        (match firstAcceptedGo gridRetries outcomes fuel i with
         | some (k, v) => (sleepAttemptBlocks delay i (k + 1 - i), some v)
         | none => (sleepAttemptBlocks delay i fuel, none)) := by
  intro fuel
  induction fuel with
  | zero => intro i; rfl
  | succ fuel ih =>
    intro i
    rw [runCommandGo, firstAcceptedGo]
    cases ho : outcomes.getD i .raise with
    | raise =>
      rw [ih (i + 1)]
      cases hf : firstAcceptedGo gridRetries outcomes fuel (i + 1) with
      | none => simp [sleepAttemptBlocks]
      | some p =>
        obtain ⟨k, v⟩ := p
        have hik : i + 1 ≤ k := firstAcceptedGo_ge hf
        simp only [show k + 1 - i = (k + 1 - (i + 1)) + 1 from by omega,
          sleepAttemptBlocks]
    | ok v =>
      simp [gridRetries, show i + 1 - i = 1 from by omega, sleepAttemptBlocks]

theorem runRpcGo_spec (outcomes : List AttemptResult) :
    ∀ (fuel i : Nat),
      runRpcGo outcomes fuel i =
        (match firstAcceptedGo rpcRetries outcomes fuel i with
         | some (k, v) => (sleepAttemptBlocks 5 i (k + 1 - i), some v)
         | none => (sleepAttemptBlocks 5 i fuel, none)) := by
  intro fuel
  induction fuel with
  | zero => intro i; rfl
  | succ fuel ih =>
    intro i
    rw [runRpcGo, firstAcceptedGo]
    cases ho : outcomes.getD i .raise with
    | raise =>
      rw [ih (i + 1)]
      cases hf : firstAcceptedGo rpcRetries outcomes fuel (i + 1) with
      | none => simp [sleepAttemptBlocks]
      | some p =>
        obtain ⟨k, v⟩ := p
        have hik : i + 1 ≤ k := firstAcceptedGo_ge hf
        simp only [show k + 1 - i = (k + 1 - (i + 1)) + 1 from by omega,
          sleepAttemptBlocks]
    | ok v =>
      rw [ih (i + 1)]
      cases he : (pyStrOfRVal v).isEmpty with
      | true =>
        cases hf : firstAcceptedGo rpcRetries outcomes fuel (i + 1) with
        | none => simp [rpcRetries, he, sleepAttemptBlocks]
        | some p =>
          obtain ⟨k, w⟩ := p
          have hik : i + 1 ≤ k := firstAcceptedGo_ge hf
          simp [rpcRetries, he, sleepAttemptBlocks,
            show k + 1 - i = (k + 1 - (i + 1)) + 1 from by omega]
      | false =>
        simp [rpcRetries, he, sleepAttemptBlocks, show i + 1 - i = 1 from by omega]

/-- C5, counterexample: an explicitly falsy parsed response does not
trigger the next retry.  With a first attempt parsing to `None` (falsy)
and a second attempt that would succeed with `7`, `run_command` returns
the falsy `None` after a single attempt, and `run_rpc_command` likewise
returns the parsed `None` (its retry test `if not str(parsed)` sees the
nonempty string `"None"`). -/
theorem run_command_no_retry_on_falsy :
    run_command 3 1 [.ok .vnone, .ok (.vnum 7)] =
      ([.sleepEv 1, .attemptEv 0], some .vnone) ∧
    isFalsyR .vnone = true ∧
    run_rpc_command [.ok .vnone, .ok (.vnum 7)] =
      ([.sleepEv 5, .attemptEv 0], some .vnone) :=
  ⟨by decide, by decide, by decide⟩

/-- C5, amended: both retrying RPC calls sleep the configured delay before
each of up to the configured maximum attempts (never attempting
immediately); a transport-level exception — including an unparseable
response, which raises while parsing — triggers the next retry, and
`run_rpc_command` additionally retries when the parsed response's string
form is empty, but an otherwise falsy parsed response is returned as-is;
after exhausting the budget both return `None` rather than raising.  The
behaviour is pinned exactly: the trace is one sleep-attempt block per
attempt made, and the result is the value of the first attempt accepted
by the respective retry policy, `none` when no attempt within the budget
is accepted. -/
theorem rpc_retry_layer_amended (retries : Nat) (delay : Int)
    (outcomes : List AttemptResult) :
    run_command retries delay outcomes =
      (match firstAcceptedGo gridRetries outcomes retries 0 with
       | some (k, v) => (sleepAttemptBlocks delay 0 (k + 1), some v)
       | none => (sleepAttemptBlocks delay 0 retries, none)) ∧
    run_rpc_command outcomes =
      (match firstAcceptedGo rpcRetries outcomes 3 0 with
       | some (k, v) => (sleepAttemptBlocks 5 0 (k + 1), some v)
       | none => (sleepAttemptBlocks 5 0 3, none)) := by
  constructor
  · rw [run_command, runCommandGo_spec]
    cases hf : firstAcceptedGo gridRetries outcomes retries 0 with
    | none => rfl
    | some p => obtain ⟨k, v⟩ := p; simp
  · rw [run_rpc_command, runRpcGo_spec]
    cases hf : firstAcceptedGo rpcRetries outcomes 3 0 with
    | none => rfl
    | some p => obtain ⟨k, v⟩ := p; simp

/-
Stats Aggregator — src/utils/StatsHelper.py `calculate_credit_averages`
(line 211).  The per-project input holds the `CREDIT_HISTORY` and
`WU_HISTORY` dicts; date keys (`"MM-DD-YYYY"` strings in the source) are
modelled already split into their three numeric components, and the
`datetime.now()`-based age of a date is supplied as the function
`daysAgo` (the value of `(now - date).days`).
-/

structure StatsDate where
  month : Int
  day : Int
  year : Int
deriving DecidableEq

structure WuBucket where
  TOTALWUS : Int
  total_wall_time : Rat
  total_cpu_time : Rat
deriving DecidableEq

structure CreditDay where
  CREDITAWARDED : Rat
deriving DecidableEq

structure ProjectHistory where
  CREDIT_HISTORY : List (StatsDate × CreditDay)
  WU_HISTORY : List (StatsDate × WuBucket)
deriving DecidableEq

structure CompiledStats where
  TOTALCREDIT : Rat
  AVGWALLTIME : Rat
  AVGCPUTIME : Rat
  AVGCREDITPERTASK : Rat
  TOTALTASKS : Int
  TOTALWALLTIME : Rat
  TOTALCPUTIME : Rat
  AVGCREDITPERHOUR : Rat
  XDAYWALLTIME : Rat
deriving DecidableEq

/-- The `total_credit` accumulation of `calculate_credit_averages`. -/
def totalCreditOf (ph : ProjectHistory) : Rat :=
  (ph.CREDIT_HISTORY.map (fun e => e.2.CREDITAWARDED)).sum

/-- The `total_wus` accumulation. -/
def totalWusOf (ph : ProjectHistory) : Int :=
  (ph.WU_HISTORY.map (fun e => e.2.TOTALWUS)).sum

/-- The `total_wall_time` accumulation. -/
def totalWallOf (ph : ProjectHistory) : Rat :=
  (ph.WU_HISTORY.map (fun e => e.2.total_wall_time)).sum

/-- The `total_cpu_time` accumulation. -/
def totalCpuOf (ph : ProjectHistory) : Rat :=
  (ph.WU_HISTORY.map (fun e => e.2.total_cpu_time)).sum

/-- The `x_day_wall_time` accumulation: wall time of the buckets whose
date's age in days is at most the rolling window. -/
def xDayWallOf (ph : ProjectHistory) (window : Int) (daysAgo : StatsDate → Int) : Rat :=
  ((ph.WU_HISTORY.filter (fun e => daysAgo e.1 ≤ window)).map
    (fun e => e.2.total_wall_time)).sum

/-- The per-project body of `calculate_credit_averages`
(StatsHelper.py:216-259).  With zero tasks every derived average is zero
and no division happens; otherwise times are converted to hours and the
credit-per-hour division raises `ZeroDivisionError` (modelled as
`Except.error`) when the wall-time total is zero — the per-task divisions
cannot raise since the task count is nonzero in that branch. -/
def project_credit_averages (ph : ProjectHistory) (window : Int)
    (daysAgo : StatsDate → Int) : Except Unit CompiledStats :=
  let total_credit := totalCreditOf ph
  let total_wus := totalWusOf ph
  let total_wall := totalWallOf ph
  let total_cpu := totalCpuOf ph
  let x_day := xDayWallOf ph window daysAgo
  if total_wus = 0 then
    .ok { TOTALCREDIT := total_credit, AVGWALLTIME := 0, AVGCPUTIME := 0,
          AVGCREDITPERTASK := 0, TOTALTASKS := total_wus,
          TOTALWALLTIME := total_wall, TOTALCPUTIME := total_cpu,
          AVGCREDITPERHOUR := 0, XDAYWALLTIME := x_day }
  else
    let total_cpu_h := total_cpu / 60 / 60
    let total_wall_h := total_wall / 60 / 60
    let x_day_h := x_day / 60 / 60
    if total_wall_h = 0 then .error ()
    else
      .ok { TOTALCREDIT := total_credit,
            AVGWALLTIME := total_wall_h / total_wus,
            AVGCPUTIME := total_cpu_h / total_wus,
            AVGCREDITPERTASK := total_credit / total_wus,
            TOTALTASKS := total_wus,
            TOTALWALLTIME := total_wall_h, TOTALCPUTIME := total_cpu_h,
            AVGCREDITPERHOUR := total_credit / total_wall_h,
            XDAYWALLTIME := x_day_h }

/-- Models `calculate_credit_averages(my_stats, rolling_weight_window)`:
the projects are processed in dict order; an exception while processing
one project aborts the whole call. -/
def calculate_credit_averages (myStats : List (String × ProjectHistory))
    (window : Int) (daysAgo : StatsDate → Int) :
    Except Unit (List (String × CompiledStats)) :=
  match myStats with
  | [] => .ok []
  | (url, ph) :: rest => do
    let cs ← project_credit_averages ph window daysAgo
    let restOut ← calculate_credit_averages rest window daysAgo
    .ok ((url, cs) :: restOut)

def exceptDecEq {ε α : Type _} [DecidableEq ε] [DecidableEq α] :
    DecidableEq (Except ε α) := fun x y =>
  match x, y with
  | .ok a, .ok b =>
    match decEq a b with
    | isTrue h => isTrue (congrArg Except.ok h)
    | isFalse h => isFalse (fun hc => h (Except.ok.inj hc))
  | .error a, .error b =>
    match decEq a b with
    | isTrue h => isTrue (congrArg Except.error h)
    | isFalse h => isFalse (fun hc => h (Except.error.inj hc))
  | .ok _, .error _ => isFalse (fun hc => Except.noConfusion hc)
  | .error _, .ok _ => isFalse (fun hc => Except.noConfusion hc)

instance {ε α : Type _} [DecidableEq ε] [DecidableEq α] :
    DecidableEq (Except ε α) := exceptDecEq

/-- C7, counterexample: one bucket with one task and zero wall time makes
`calculate_credit_averages` raise `ZeroDivisionError` in
`total_credit / total_wall_time` — the zero-task guard guarantees a
nonzero task count, not a nonzero time total. -/
theorem calculate_credit_averages_div_error :
    calculate_credit_averages
      [("P", { CREDIT_HISTORY := [],
               WU_HISTORY := [(⟨1, 1, 2024⟩, ⟨1, 0, 0⟩)] })] 60 (fun _ => 0) =
      .error () := by
  norm_num [calculate_credit_averages, project_credit_averages, totalWusOf,
    totalCreditOf, totalWallOf, totalCpuOf, xDayWallOf]
  rfl

/-- Spec-side: the record `calculate_credit_averages` produces for a
zero-task project. -/
def zeroTaskStats (ph : ProjectHistory) (window : Int)
    (daysAgo : StatsDate → Int) : CompiledStats :=
  { TOTALCREDIT := totalCreditOf ph, AVGWALLTIME := 0, AVGCPUTIME := 0,
    AVGCREDITPERTASK := 0, TOTALTASKS := 0, TOTALWALLTIME := totalWallOf ph,
    TOTALCPUTIME := totalCpuOf ph, AVGCREDITPERHOUR := 0,
    XDAYWALLTIME := xDayWallOf ph window daysAgo }

/-- Spec-side: the record `calculate_credit_averages` produces for a
project with tasks and nonzero wall time. -/
def busyTaskStats (ph : ProjectHistory) (window : Int)
    (daysAgo : StatsDate → Int) : CompiledStats :=
  { TOTALCREDIT := totalCreditOf ph,
    AVGWALLTIME := totalWallOf ph / 60 / 60 / (totalWusOf ph : Rat),
    AVGCPUTIME := totalCpuOf ph / 60 / 60 / (totalWusOf ph : Rat),
    AVGCREDITPERTASK := totalCreditOf ph / (totalWusOf ph : Rat),
    TOTALTASKS := totalWusOf ph,
    TOTALWALLTIME := totalWallOf ph / 60 / 60,
    TOTALCPUTIME := totalCpuOf ph / 60 / 60,
    AVGCREDITPERHOUR := totalCreditOf ph / (totalWallOf ph / 60 / 60),
    XDAYWALLTIME := xDayWallOf ph window daysAgo / 60 / 60 }

/-- C7, amended: for every project with zero total tasks the four derived
fields `AVGWALLTIME`, `AVGCPUTIME`, `AVGCREDITPERTASK` and
`AVGCREDITPERHOUR` are zero and no division happens; and the computation
is division-error free provided every project with a nonzero task count
has a nonzero wall-time total (without that proviso the credit-per-hour
division raises, as the counterexample shows). -/
theorem calculate_credit_averages_amended (myStats : List (String × ProjectHistory))
    (window : Int) (daysAgo : StatsDate → Int)
    (hw : ∀ p ∈ myStats, totalWusOf p.2 ≠ 0 → totalWallOf p.2 ≠ 0) :
    ∃ out, calculate_credit_averages myStats window daysAgo = .ok out ∧
      ∀ p ∈ myStats, totalWusOf p.2 = 0 →
        (p.1, zeroTaskStats p.2 window daysAgo) ∈ out := by
  induction myStats with
  | nil => exact ⟨[], rfl, fun p hp => absurd hp (List.not_mem_nil p)⟩
  | cons e rest ih =>
    obtain ⟨u, ph⟩ := e
    obtain ⟨restOut, hrest, hmem⟩ :=
      ih (fun p hp => hw p (List.mem_cons_of_mem _ hp))
    by_cases hz : totalWusOf ph = 0
    · refine ⟨(u, zeroTaskStats ph window daysAgo) :: restOut, ?_, ?_⟩
      · rw [calculate_credit_averages]
        rw [show project_credit_averages ph window daysAgo =
            .ok (zeroTaskStats ph window daysAgo) from by
          simp [project_credit_averages, zeroTaskStats, hz]]
        rw [hrest]
        rfl
      · intro p hp hpz
        rcases List.mem_cons.mp hp with rfl | hp2
        · exact List.mem_cons_self _ _
        · exact List.mem_cons_of_mem _ (hmem p hp2 hpz)
    · have hwall : totalWallOf ph ≠ 0 := hw (u, ph) (List.mem_cons_self _ _) hz
      have hwallh : ¬(totalWallOf ph / 60 / 60 = 0) := by
        intro hc
        apply hwall
        field_simp at hc
        exact hc
      refine ⟨(u, busyTaskStats ph window daysAgo) :: restOut, ?_, ?_⟩
      · rw [calculate_credit_averages]
        rw [show project_credit_averages ph window daysAgo =
            .ok (busyTaskStats ph window daysAgo) from by
          simp [project_credit_averages, busyTaskStats, hz, hwallh]]
        rw [hrest]
        rfl
      · intro p hp hpz
        rcases List.mem_cons.mp hp with rfl | hp2
        · exact absurd hpz hz
        · exact List.mem_cons_of_mem _ (hmem p hp2 hpz)

/-- C7, witness: the amended theorem applied to a concrete two-project
input — one zero-task project and one project with one task of an hour of
wall time. -/
theorem calculate_credit_averages_amended_witness :
    ∃ out, calculate_credit_averages
      [("Z", { CREDIT_HISTORY := [(⟨2, 3, 2024⟩, ⟨5⟩)], WU_HISTORY := [] }),
       ("W", { CREDIT_HISTORY := [], WU_HISTORY := [(⟨2, 3, 2024⟩, ⟨1, 3600, 10⟩)] })]
      60 (fun _ => 1) = .ok out ∧
      ∀ p ∈ [(("Z" : String),
              ({ CREDIT_HISTORY := [(⟨2, 3, 2024⟩, ⟨5⟩)],
                 WU_HISTORY := [] } : ProjectHistory)),
             ("W", { CREDIT_HISTORY := [],
                     WU_HISTORY := [(⟨2, 3, 2024⟩, ⟨1, 3600, 10⟩)] })],
        totalWusOf p.2 = 0 → (p.1, zeroTaskStats p.2 60 (fun _ => 1)) ∈ out :=
  calculate_credit_averages_amended _ 60 (fun _ => 1) (by
    intro p hp
    fin_cases hp <;> norm_num [totalWusOf, totalWallOf])

/-
Economic Scheduler — src/utils/StatsHelper.py `add_mag_to_combined_stats`
(line 375).  The `COMPILED_STATS` sub-dict is modelled with the fields the
function reads or writes; `AVGCREDITPERHOUR` is optional because the
source tests its presence, and the two written fields are optional
because they may be absent before the call. -/

structure MagCompiled where
  AVGCREDITPERHOUR : Option Rat
  AVGMAGPERHOUR : Option Rat
  MAGPERCREDIT : Option Rat
deriving DecidableEq

/-- Models `add_mag_to_combined_stats(combined_stats, mag_ratios,
approved_projects, preferred_projects)`; a falsy `mag_ratios` (`None` or
the empty dict) becomes the empty table.  Per project, a missing-or-falsy
ratio zeroes the two magnitude fields and flags the project unapproved
unless listed; otherwise `AVGMAGPERHOUR = AVGCREDITPERHOUR * ratio`
(with 0 standing in for an absent `AVGCREDITPERHOUR`). -/
def add_mag_to_combined_stats (combined_stats : List (String × MagCompiled))
    (mag_ratios : Option (List (String × Rat)))
    (approved_projects preferred_projects : List String) :
    List (String × MagCompiled) × List String :=
  let ratios := match mag_ratios with
    | none => []
    | some r => r
  let updated := combined_stats.map (fun e =>
    let found_mag_ratio := (List.lookup e.1 ratios).getD 0
    if found_mag_ratio = 0 then
      (e.1, { e.2 with AVGMAGPERHOUR := some 0, MAGPERCREDIT := some 0 })
    else
      let avg_credit_per_hour := e.2.AVGCREDITPERHOUR.getD 0
      (e.1, { e.2 with AVGMAGPERHOUR := some (avg_credit_per_hour * found_mag_ratio),
                       MAGPERCREDIT := some found_mag_ratio }))
  let unapproved := combined_stats.filterMap (fun e =>
    let found_mag_ratio := (List.lookup e.1 ratios).getD 0
    if found_mag_ratio = 0 ∧ e.1 ∉ approved_projects ∧ e.1 ∉ preferred_projects
    then some e.1 else none)
  (updated, unapproved)

theorem lookup_filter_ne {β : Type _} {l : List (String × β)} {k p : String}
    (h : k ≠ p) :
    List.lookup k (l.filter (fun e => e.1 ≠ p)) = List.lookup k l := by
  induction l with
  | nil => rfl
  | cons e rest ih =>
    by_cases he : e.1 = p
    · rw [List.filter_cons_of_neg (by simp [he])]
      rw [ih]
      rw [List.lookup_cons]
      have : (k == e.1) = false := by
        simp [he]
        exact h
      rw [this]
    · rw [List.filter_cons_of_pos (by simp [he])]
      rw [List.lookup_cons, List.lookup_cons]
      cases hk : k == e.1 with
      | true => rfl
      | false => exact ih

theorem lookup_filter_self {β : Type _} (l : List (String × β)) (p : String) :
    List.lookup p (l.filter (fun e => e.1 ≠ p)) = none := by
  induction l with
  | nil => rfl
  | cons e rest ih =>
    by_cases he : e.1 = p
    · rw [List.filter_cons_of_neg (by simp [he])]
      exact ih
    · rw [List.filter_cons_of_pos (by simp [he])]
      rw [List.lookup_cons]
      have : (p == e.1) = false := by
        simp
        exact fun hc => he hc.symm
      rw [this]
      exact ih

/-- C10: a project whose `mag_ratios` entry is present but exactly 0 is
treated identically to a project missing from `mag_ratios` (the source
reads `mag_ratios.get(url, 0)` and then branches on falsiness): the whole
call result is unchanged when the entry is deleted, the project's
`AVGMAGPERHOUR` and `MAGPERCREDIT` are set to 0, and it lands on the
returned unapproved list exactly when it is on neither the approved nor
the preferred list. -/
theorem add_mag_zero_ratio_as_missing
    (cs : List (String × MagCompiled)) (ratios : List (String × Rat))
    (approved preferred : List String) (p : String)
    (hz : List.lookup p ratios = some 0) :
    add_mag_to_combined_stats cs (some ratios) approved preferred =
      add_mag_to_combined_stats cs (some (ratios.filter (fun e => e.1 ≠ p)))
        approved preferred ∧
    (∀ stats, (p, stats) ∈ (add_mag_to_combined_stats cs (some ratios)
        approved preferred).1 →
      stats.AVGMAGPERHOUR = some 0 ∧ stats.MAGPERCREDIT = some 0) ∧
    (p ∈ cs.map Prod.fst →
      (p ∈ (add_mag_to_combined_stats cs (some ratios) approved preferred).2 ↔
        p ∉ approved ∧ p ∉ preferred)) := by
  have hsame : ∀ k : String,
      (List.lookup k (ratios.filter (fun e => e.1 ≠ p))).getD 0 =
      (List.lookup k ratios).getD 0 := by
    intro k
    by_cases hk : k = p
    · subst hk
      rw [lookup_filter_self, hz]
      rfl
    · rw [lookup_filter_ne hk]
  refine ⟨?_, ?_, ?_⟩
  · unfold add_mag_to_combined_stats
    simp only [hsame]
  · intro stats hmem
    unfold add_mag_to_combined_stats at hmem
    simp only [List.mem_map] at hmem
    obtain ⟨e, hecs, heq⟩ := hmem
    by_cases hf : (List.lookup e.1 ratios).getD 0 = 0
    · rw [if_pos hf] at heq
      obtain ⟨-, rfl⟩ := Prod.mk.injEq .. ▸ And.intro (congrArg Prod.fst heq)
        (congrArg Prod.snd heq)
      exact ⟨rfl, rfl⟩
    · rw [if_neg hf] at heq
      have hep : e.1 = p := congrArg Prod.fst heq
      rw [hep, hz] at hf
      exact absurd rfl hf
  · intro hkey
    unfold add_mag_to_combined_stats
    simp only [List.mem_filterMap]
    constructor
    · rintro ⟨e, hecs, hcond⟩
      split at hcond
      · next hc =>
        cases hcond
        exact ⟨hc.2.1, hc.2.2⟩
      · exact absurd hcond (by simp)
    · rintro ⟨hna, hnp⟩
      obtain ⟨e, hecs, hep⟩ := List.mem_map.mp hkey
      refine ⟨e, hecs, ?_⟩
      rw [if_pos ⟨by rw [hep, hz]; rfl, by rw [hep]; exact hna, by rw [hep]; exact hnp⟩]
      rw [hep]

/-- C10, witness: the theorem applied to a one-project table whose ratio
entry for that project is present and exactly 0. -/
theorem add_mag_zero_ratio_as_missing_witness :
    add_mag_to_combined_stats [("E", ⟨some 2, none, none⟩)] (some [("E", 0)]) [] [] =
      add_mag_to_combined_stats [("E", ⟨some 2, none, none⟩)]
        (some ([("E", (0 : Rat))].filter (fun e => e.1 ≠ "E"))) [] [] :=
  (add_mag_zero_ratio_as_missing [("E", ⟨some 2, none, none⟩)] [("E", 0)] [] [] "E"
    (by rfl)).1

/-
Economic Scheduler — src/utils/StatsHelper.py `is_project_eligible`
(line 419) and `get_most_mag_efficient_projects` (line 450). -/

/-- The `COMPILED_STATS` fields `get_most_mag_efficient_projects` reads. -/
structure EffCompiled where
  AVGMAGPERHOUR : Rat
  TOTALTASKS : Int
deriving DecidableEq

/-- Models `is_project_eligible(project_url, project_stats,
ignored_projects)`.  The source's `except` path (malformed stats dict —
returns True) is unreachable in this typed embedding, where `TOTALTASKS`
is always a number. -/
def is_project_eligible (project_url : String) (project_stats : EffCompiled)
    (ignored_projects : List String) : Bool :=
  if project_url ∈ ignored_projects then false
  else project_stats.TOTALTASKS ≥ 10

/-- Models `get_first_non_ignored_project(project_list, ignored_projects)`. -/
def get_first_non_ignored_project (project_list : List String)
    (ignored_projects : List String) : Option String :=
  project_list.find? (fun p => !ignored_projects.contains p)

/-- The dict access `combinedstats[k]["COMPILED_STATS"]`; every key the
source looks up is drawn from the dict's own keys, so the Python
`KeyError` case cannot fire and a default record stands in for it. -/
def lookupStats (cs : List (String × EffCompiled)) (k : String) : EffCompiled :=
  (List.lookup k cs).getD ⟨0, 0⟩

/-- The leader scan of `get_most_mag_efficient_projects`
(StatsHelper.py:477-487): starting from the first non-ignored project,
replace the candidate whenever a non-ignored project has strictly higher
`AVGMAGPERHOUR` and is eligible. -/
def findHighestProject (cs : List (String × EffCompiled))
    (ignored_projects : List String) (hp0 : String) : String :=
  cs.foldl (fun hp e =>
    if e.1 ∈ ignored_projects then hp
    else if e.2.AVGMAGPERHOUR > (lookupStats cs hp).AVGMAGPERHOUR ∧
            is_project_eligible e.1 e.2 ignored_projects = true
    then e.1 else hp) hp0

/-- Models `get_most_mag_efficient_projects(combinedstats,
ignored_projects, percentdiff)`: pick the leader, then add every other
non-ignored eligible project with nonzero `AVGMAGPERHOUR` at or above
`highest − highest·(percentdiff/100)`; a lone under-sampled leader
(fewer than 10 tasks) is dropped, yielding the empty list. -/
def get_most_mag_efficient_projects (combinedstats : List (String × EffCompiled))
    (ignored_projects : List String) (percentdiff : Rat) : List String :=
  match get_first_non_ignored_project (combinedstats.map Prod.fst)
      ignored_projects with
  | none => []
  | some hp0 =>
    if hp0 = "" then []
    else
      let hp := findHighestProject combinedstats ignored_projects hp0
      let highest_avg_mag := (lookupStats combinedstats hp).AVGMAGPERHOUR
      let minimum_for_inclusion :=
        highest_avg_mag - highest_avg_mag * (percentdiff / 100)
      let others := combinedstats.filterMap (fun e =>
        if e.1 = hp then none
        else if e.1 ∈ ignored_projects then none
        else if minimum_for_inclusion ≤ e.2.AVGMAGPERHOUR ∧
                is_project_eligible e.1 e.2 ignored_projects = true ∧
                e.2.AVGMAGPERHOUR ≠ 0
        then some e.1 else none)
      let return_list := hp :: others
      if return_list.length = 1 ∧ (lookupStats combinedstats hp).TOTALTASKS < 10
      then [] else return_list

/-- C6, counterexample: with tolerance 100 an eligible project whose
`AVGMAGPERHOUR` is exactly 0 is excluded by the `current_avg_mag != 0`
conjunct, so the call does not return every eligible project. -/
theorem get_most_mag_efficient_excludes_zero :
    get_most_mag_efficient_projects [("A", ⟨1, 20⟩), ("B", ⟨0, 20⟩)] [] 100 =
      ["A"] ∧
    is_project_eligible "B" ⟨0, 20⟩ [] = true := by
  constructor
  · norm_num [get_most_mag_efficient_projects, get_first_non_ignored_project,
      findHighestProject, lookupStats, is_project_eligible, List.find?,
      List.filterMap, List.foldl, List.lookup]
    decide
  · decide

theorem lookup_eq_of_mem_nodup {β : Type _} {cs : List (String × β)} {p : String}
    {ps : β} (hnd : (cs.map Prod.fst).Nodup) (hmem : (p, ps) ∈ cs) :
    List.lookup p cs = some ps := by
  induction cs with
  | nil => cases hmem
  | cons e rest ih =>
    rcases List.mem_cons.mp hmem with rfl | hm
    · rw [List.lookup_cons]
      simp
    · rw [List.lookup_cons]
      have hpe : (p == e.1) = false := by
        simp only [List.map_cons, List.nodup_cons] at hnd
        have : e.1 ≠ p := by
          intro hc
          exact hnd.1 (hc ▸ List.mem_map.mpr ⟨(p, ps), hm, rfl⟩)
        simp [beq_eq_false_iff_ne]
        exact fun hc => this hc.symm
      rw [hpe]
      exact ih (by
        simp only [List.map_cons, List.nodup_cons] at hnd
        exact hnd.2) hm

theorem eligible_spec {p : String} {ps : EffCompiled} {ignored : List String}
    (h : is_project_eligible p ps ignored = true) :
    p ∉ ignored ∧ ps.TOTALTASKS ≥ 10 := by
  unfold is_project_eligible at h
  by_cases hmem : p ∈ ignored
  · rw [if_pos hmem] at h
    exact absurd h (by simp)
  · rw [if_neg hmem] at h
    exact ⟨hmem, of_decide_eq_true h⟩

theorem leader_fold_ge {cs : List (String × EffCompiled)} {ignored : List String}
    (hnd : (cs.map Prod.fst).Nodup) :
    ∀ (l : List (String × EffCompiled)) (hp : String), (∀ e ∈ l, e ∈ cs) →
      (lookupStats cs hp).AVGMAGPERHOUR ≤
        (lookupStats cs (l.foldl (fun hp e =>
          if e.1 ∈ ignored then hp
          else if e.2.AVGMAGPERHOUR > (lookupStats cs hp).AVGMAGPERHOUR ∧
                  is_project_eligible e.1 e.2 ignored = true
          then e.1 else hp) hp)).AVGMAGPERHOUR := by
  intro l
  induction l with
  | nil => exact fun hp _ => le_refl _
  | cons f l ih =>
    intro hp hsub
    rw [List.foldl_cons]
    refine le_trans ?_ (ih _ (fun e he => hsub e (List.mem_cons_of_mem f he)))
    by_cases hig : f.1 ∈ ignored
    · rw [if_pos hig]
    · rw [if_neg hig]
      by_cases hcond : f.2.AVGMAGPERHOUR > (lookupStats cs hp).AVGMAGPERHOUR ∧
          is_project_eligible f.1 f.2 ignored = true
      · rw [if_pos hcond]
        have : lookupStats cs f.1 = f.2 := by
          unfold lookupStats
          rw [lookup_eq_of_mem_nodup hnd
            (by exact hsub f (List.mem_cons_self f l))]
          rfl
        rw [this]
        exact le_of_lt hcond.1
      · rw [if_neg hcond]

theorem leader_fold_max {cs : List (String × EffCompiled)} {ignored : List String}
    (hnd : (cs.map Prod.fst).Nodup) :
    ∀ (l : List (String × EffCompiled)) (hp : String), (∀ e ∈ l, e ∈ cs) →
      ∀ f ∈ l, is_project_eligible f.1 f.2 ignored = true →
        f.2.AVGMAGPERHOUR ≤
          (lookupStats cs (l.foldl (fun hp e =>
            if e.1 ∈ ignored then hp
            else if e.2.AVGMAGPERHOUR > (lookupStats cs hp).AVGMAGPERHOUR ∧
                    is_project_eligible e.1 e.2 ignored = true
            then e.1 else hp) hp)).AVGMAGPERHOUR := by
  intro l
  induction l with
  | nil => exact fun hp _ f hf => absurd hf (List.not_mem_nil f)
  | cons g l ih =>
    intro hp hsub f hf helig
    rw [List.foldl_cons]
    rcases List.mem_cons.mp hf with rfl | hfl
    · refine le_trans ?_ (leader_fold_ge hnd l _
        (fun e he => hsub e (List.mem_cons_of_mem f he)))
      have hig : f.1 ∉ ignored := (eligible_spec helig).1
      rw [if_neg hig]
      by_cases hcond : f.2.AVGMAGPERHOUR > (lookupStats cs hp).AVGMAGPERHOUR ∧
          is_project_eligible f.1 f.2 ignored = true
      · rw [if_pos hcond]
        have : lookupStats cs f.1 = f.2 := by
          unfold lookupStats
          rw [lookup_eq_of_mem_nodup hnd (hsub f (List.mem_cons_self f l))]
          rfl
        rw [this]
      · rw [if_neg hcond]
        have : ¬(f.2.AVGMAGPERHOUR > (lookupStats cs hp).AVGMAGPERHOUR) :=
          fun hc => hcond ⟨hc, helig⟩
        exact le_of_not_lt this
    · exact ih _ (fun e he => hsub e (List.mem_cons_of_mem g he)) f hfl helig

theorem findHighest_max {cs : List (String × EffCompiled)} {ignored : List String}
    (hnd : (cs.map Prod.fst).Nodup) (hp0 : String) :
    ∀ f ∈ cs, is_project_eligible f.1 f.2 ignored = true →
      f.2.AVGMAGPERHOUR ≤
        (lookupStats cs (findHighestProject cs ignored hp0)).AVGMAGPERHOUR :=
  fun f hf helig => leader_fold_max hnd cs hp0 (fun _ he => he) f hf helig

theorem get_most_eq (cs : List (String × EffCompiled)) (ignored : List String)
    (percent : Rat) (hp0 : String)
    (hfind : get_first_non_ignored_project (cs.map Prod.fst) ignored = some hp0)
    (hne : ¬hp0 = "") :
    get_most_mag_efficient_projects cs ignored percent =
      (if (findHighestProject cs ignored hp0 :: cs.filterMap (fun e =>
            if e.1 = findHighestProject cs ignored hp0 then none
            else if e.1 ∈ ignored then none
            else if (lookupStats cs (findHighestProject cs ignored hp0)).AVGMAGPERHOUR
                    - (lookupStats cs (findHighestProject cs ignored hp0)).AVGMAGPERHOUR
                      * (percent / 100) ≤ e.2.AVGMAGPERHOUR ∧
                    is_project_eligible e.1 e.2 ignored = true ∧
                    e.2.AVGMAGPERHOUR ≠ 0
            then some e.1 else none)).length = 1 ∧
          (lookupStats cs (findHighestProject cs ignored hp0)).TOTALTASKS < 10
       then []
       else findHighestProject cs ignored hp0 :: cs.filterMap (fun e =>
            if e.1 = findHighestProject cs ignored hp0 then none
            else if e.1 ∈ ignored then none
            else if (lookupStats cs (findHighestProject cs ignored hp0)).AVGMAGPERHOUR
                    - (lookupStats cs (findHighestProject cs ignored hp0)).AVGMAGPERHOUR
                      * (percent / 100) ≤ e.2.AVGMAGPERHOUR ∧
                    is_project_eligible e.1 e.2 ignored = true ∧
                    e.2.AVGMAGPERHOUR ≠ 0
            then some e.1 else none)) := by
  unfold get_most_mag_efficient_projects
  rw [hfind]
  simp only [hne, if_false, ite_false]

/-- C6, amended: with tolerance 100 the result contains every eligible
project with positive `AVGMAGPERHOUR` (an eligible project whose
average is exactly 0 is excluded by the `current_avg_mag != 0` test, as
the counterexample shows); with tolerance 0 every returned project is
either the leader (the head of the list) or an eligible project whose
`AVGMAGPERHOUR` exactly ties the leader's nonzero value.  Stated for
tables with distinct, nonempty project keys. -/
theorem get_most_mag_efficient_amended (cs : List (String × EffCompiled))
    (ignored : List String) (p : String) (ps : EffCompiled)
    (hnd : (cs.map Prod.fst).Nodup)
    (hnn : "" ∉ cs.map Prod.fst)
    (hmem : (p, ps) ∈ cs)
    (helig : is_project_eligible p ps ignored = true) :
    (0 < ps.AVGMAGPERHOUR → p ∈ get_most_mag_efficient_projects cs ignored 100) ∧
    (∀ q ∈ get_most_mag_efficient_projects cs ignored 0,
      ∃ hp, (get_most_mag_efficient_projects cs ignored 0).head? = some hp ∧
        (q = hp ∨ ∃ qs, (q, qs) ∈ cs ∧ is_project_eligible q qs ignored = true ∧
          qs.AVGMAGPERHOUR = (lookupStats cs hp).AVGMAGPERHOUR ∧
          qs.AVGMAGPERHOUR ≠ 0)) := by
  have hpmem : p ∈ cs.map Prod.fst := List.mem_map.mpr ⟨(p, ps), hmem, rfl⟩
  have hpig : p ∉ ignored := (eligible_spec helig).1
  have htask : ps.TOTALTASKS ≥ 10 := (eligible_spec helig).2
  obtain ⟨hp0, hfind⟩ : ∃ hp0,
      get_first_non_ignored_project (cs.map Prod.fst) ignored = some hp0 := by
    unfold get_first_non_ignored_project
    cases hf : (cs.map Prod.fst).find? (fun x => !ignored.contains x) with
    | some x => exact ⟨x, rfl⟩
    | none =>
      exfalso
      have := List.find?_eq_none.mp hf p hpmem
      simp [hpig] at this
  have hp0mem : hp0 ∈ cs.map Prod.fst := List.mem_of_find?_eq_some hfind
  have hp0ne : ¬hp0 = "" := fun hc => hnn (hc ▸ hp0mem)
  constructor
  · -- tolerance 100
    intro hpos
    rw [get_most_eq cs ignored 100 hp0 hfind hp0ne]
    set hp := findHighestProject cs ignored hp0 with hhp
    set others := cs.filterMap (fun e =>
      if e.1 = hp then none
      else if e.1 ∈ ignored then none
      else if (lookupStats cs hp).AVGMAGPERHOUR
              - (lookupStats cs hp).AVGMAGPERHOUR * ((100 : Rat) / 100)
              ≤ e.2.AVGMAGPERHOUR ∧
              is_project_eligible e.1 e.2 ignored = true ∧
              e.2.AVGMAGPERHOUR ≠ 0
      then some e.1 else none) with hothers
    have hm : ∀ x : Rat, x - x * ((100 : Rat) / 100) = 0 := fun x => by norm_num
    by_cases hphp : p = hp
    · have hlp : lookupStats cs hp = ps := by
        unfold lookupStats
        rw [← hphp, lookup_eq_of_mem_nodup hnd hmem]
        rfl
      rw [if_neg (fun hc => absurd hc.2 (by rw [hlp]; omega))]
      rw [hphp]
      exact List.mem_cons_self _ _
    · have hin : p ∈ others := by
        rw [hothers]
        refine List.mem_filterMap.mpr ⟨(p, ps), hmem, ?_⟩
        rw [if_neg hphp, if_neg hpig,
          if_pos ⟨by rw [hm]; exact le_of_lt hpos, helig, ne_of_gt hpos⟩]
      have hlen : ¬((hp :: others).length = 1 ∧ (lookupStats cs hp).TOTALTASKS < 10) := by
        rintro ⟨hc, -⟩
        rw [List.length_cons] at hc
        have : others = [] := List.length_eq_zero.mp (by omega)
        rw [this] at hin
        exact absurd hin (List.not_mem_nil p)
      rw [if_neg hlen]
      exact List.mem_cons_of_mem _ hin
  · -- tolerance 0
    intro q hq
    rw [get_most_eq cs ignored 0 hp0 hfind hp0ne] at hq ⊢
    set hp := findHighestProject cs ignored hp0 with hhp
    set others := cs.filterMap (fun e =>
      if e.1 = hp then none
      else if e.1 ∈ ignored then none
      else if (lookupStats cs hp).AVGMAGPERHOUR
              - (lookupStats cs hp).AVGMAGPERHOUR * ((0 : Rat) / 100)
              ≤ e.2.AVGMAGPERHOUR ∧
              is_project_eligible e.1 e.2 ignored = true ∧
              e.2.AVGMAGPERHOUR ≠ 0
      then some e.1 else none) with hothers
    have hm0 : ∀ x : Rat, x - x * ((0 : Rat) / 100) = x := fun x => by norm_num
    by_cases hclear : (hp :: others).length = 1 ∧ (lookupStats cs hp).TOTALTASKS < 10
    · rw [if_pos hclear] at hq
      exact absurd hq (List.not_mem_nil q)
    · rw [if_neg hclear] at hq ⊢
      refine ⟨hp, rfl, ?_⟩
      rcases List.mem_cons.mp hq with rfl | hq2
      · exact Or.inl rfl
      · right
        rw [hothers] at hq2
        obtain ⟨e, hecs, hcond⟩ := List.mem_filterMap.mp hq2
        by_cases h1 : e.1 = hp
        · rw [if_pos h1] at hcond
          exact absurd hcond (by simp)
        · rw [if_neg h1] at hcond
          by_cases h2 : e.1 ∈ ignored
          · rw [if_pos h2] at hcond
            exact absurd hcond (by simp)
          · rw [if_neg h2] at hcond
            by_cases h3 : (lookupStats cs hp).AVGMAGPERHOUR
                - (lookupStats cs hp).AVGMAGPERHOUR * ((0 : Rat) / 100)
                ≤ e.2.AVGMAGPERHOUR ∧
                is_project_eligible e.1 e.2 ignored = true ∧
                e.2.AVGMAGPERHOUR ≠ 0
            · rw [if_pos h3] at hcond
              have heq : e.1 = q := Option.some.inj hcond
              obtain ⟨hge, helig2, hne0⟩ := h3
              rw [hm0] at hge
              have hle : e.2.AVGMAGPERHOUR ≤ (lookupStats cs hp).AVGMAGPERHOUR :=
                findHighest_max hnd hp0 e hecs helig2
              refine ⟨e.2, ?_, ?_, le_antisymm hle hge, hne0⟩
              · rw [← heq]
                exact hecs
              · rw [← heq]
                exact helig2
            · rw [if_neg h3] at hcond
              exact absurd hcond (by simp)

/-- C6, witness: the amended theorem applied to the concrete table
`{A: 1 mag/hr, 20 tasks; B: 0 mag/hr, 10 tasks; C: 0.91 mag/hr,
20 tasks}` with project `A`, concluding that `A` is in the tolerance-100
result. -/
theorem get_most_mag_efficient_amended_witness :
    "A" ∈ get_most_mag_efficient_projects
      [("A", ⟨1, 20⟩), ("B", ⟨0, 10⟩), ("C", ⟨91/100, 20⟩)] [] 100 :=
  (get_most_mag_efficient_amended
    [("A", ⟨1, 20⟩), ("B", ⟨0, 10⟩), ("C", ⟨91/100, 20⟩)] [] "A" ⟨1, 20⟩
    (by decide) (by decide) (by norm_num) (by decide)).1 (by norm_num)

/-
Magnitude Ratio Engine — src/utils/GridcoinClientConnection.py
`ProjectMagRatio.get_project_mag_ratios` (line 263) and
`get_project_mag_ratios_from_response` (line 382), with
`grc_project_name_to_url` from src/utils/utils.py (line 88).
The class-level cache `PROJECT_MAG_RATIOS_CACHE` is threaded explicitly:
each function takes the cache before the call and returns the cache after
it.  The two `run_command` calls are modelled by their outcomes
(`none` = the command returned a falsy/absent response or raised when
subscripted). -/

structure Superblock where
  total_magnitude : Rat
  total_projects : Rat
  projects : List (String × Rat)
deriving DecidableEq

/-- Canonical-URL-keyed ratio table. -/
abbrev MagTable := List (PyStr × Rat)

def pyUpperS (s : String) : String := String.mk (pyUpper s.data)

/-- Models `grc_project_name_to_url(searchname, all_projects)`: the first
project whose name matches case-insensitively yields its URL (the
source's two accepted shapes — plain URL string or dict with `base_url` —
both reduce to the URL). -/
def grc_project_name_to_url (searchname : String)
    (all_projects : List (String × String)) : Option String :=
  (all_projects.find? (fun e => pyUpperS e.1 == pyUpperS searchname)).map Prod.snd

/-- One `projects[project_name].append(project_stats["rac"])` step of the
superblock scan: append to a known project, create the entry only on the
newest superblock (`i == 0`), skip otherwise (greylisted project). -/
def addRac (projs : List (String × List Rat)) (isFirst : Bool)
    (name : String) (rac : Rat) : List (String × List Rat) :=
  if projs.any (fun e => e.1 == name) then
    projs.map (fun e => if e.1 == name then (e.1, e.2 ++ [rac]) else e)
  else if isFirst then projs ++ [(name, [rac])]
  else projs

/-- The superblock loop of `get_project_mag_ratios_from_response`
(lines 393-407): index `i` runs over the lookback window; an index beyond
the response raises (`IndexError`), and on the newest superblock the
magnitude-per-project division raises when `total_projects` is zero. -/
def collectRacsGo (response : List Superblock) :
    Nat → Nat → Rat → List (String × List Rat) →
    Except Unit (Rat × List (String × List Rat))
  | 0, _, mpp, projs => .ok (mpp, projs)
  | n + 1, i, mpp, projs =>
    match response[i]? with
    | none => .error ()
    | some sb =>
      (if i = 0 then
        (if sb.total_projects = 0 then Except.error ()
         else Except.ok (sb.total_magnitude / sb.total_projects))
       else Except.ok mpp) >>= fun mpp2 =>
      collectRacsGo response n (i + 1) mpp2
        (sb.projects.foldl (fun pr e => addRac pr (i == 0) e.1 e.2) projs)

def collectRacs (response : List Superblock) (lookback : Nat) :
    Except Unit (Rat × List (String × List Rat)) :=
  collectRacsGo response lookback 0 0 []

/-- `return_dict[canonical_url] = ...`: Python dict assignment — replace
an existing key in place, else append. -/
def dictSet (t : MagTable) (k : PyStr) (v : Rat) : MagTable :=
  if t.any (fun e => e.1 == k) then
    t.map (fun e => if e.1 == k then (e.1, v) else e)
  else t ++ [(k, v)]

/-- The ratio loop of `get_project_mag_ratios_from_response`
(lines 408-414): the average-RAC division raises when a project's RAC
list is empty or sums to zero; unresolvable names are skipped. -/
def buildTableGo (mpp : Rat) (resolver : List (String × String)) :
    List (String × List Rat) → MagTable → Except Unit MagTable
  | [], acc => .ok acc
  | (name, racs) :: rest, acc =>
    if racs.length = 0 then .error ()
    else
      let average_rac := racs.sum / (racs.length : Rat)
      if average_rac = 0 then .error ()
      else
        match grc_project_name_to_url name resolver with
        | none => buildTableGo mpp resolver rest acc
        | some url =>
          buildTableGo mpp resolver rest
            (dictSet acc (resolve_url_database url.data) (mpp / average_rac))

/-- Models `get_project_mag_ratios_from_response(response,
project_resolver_dict, lookback_period)` acting on the class cache: the
cache assignment is the function's final statement, so the cache is
replaced exactly on success and untouched when any step raises. -/
def get_project_mag_ratios_from_response (cache : MagTable)
    (response : List Superblock) (project_resolver_dict : List (String × String))
    (lookback_period : Nat) : MagTable × Except Unit MagTable :=
  match (do
      let pair ← collectRacs response lookback_period
      buildTableGo pair.1 project_resolver_dict pair.2 []) with
  | .ok t => (t, .ok t)
  | .error e => (cache, .error e)

/-- `if not response: response = grc_client.run_command("superblocks", ...)`
then `if not response: raise ConnectionError` (lines 296-302). -/
def resolveResponse (passed_response cmd_response : Option (List Superblock)) :
    Except Unit (List Superblock) :=
  match passed_response with
  | some r => Except.ok r
  | none =>
    match cmd_response with
    | some r => Except.ok r
    | none => Except.error ()

/-- `if not grc_projects: grc_projects = run_command("listprojects")["result"]`
then `if not grc_projects: raise ConnectionError` (lines 303-306);
`cmd_projects = none` also covers the subscript raising on a `None`
command result. -/
def resolveProjects (passed_projects cmd_projects : Option (List (String × String))) :
    Except Unit (List (String × String)) :=
  match passed_projects with
  | some P =>
    if P.isEmpty then
      match cmd_projects with
      | some q => if q.isEmpty then Except.error () else Except.ok q
      | none => Except.error ()
    else Except.ok P
  | none =>
    match cmd_projects with
    | some q => if q.isEmpty then Except.error () else Except.ok q
    | none => Except.error ()

/-- The `try` body of `get_project_mag_ratios` (lines 295-312): resolve
the response (the passed-in one, else the `superblocks` command result,
raising when both are falsy), resolve the project table likewise, then
delegate to `get_project_mag_ratios_from_response`. -/
def magRatiosTry (cache : MagTable)
    (passed_response cmd_response : Option (List Superblock))
    (passed_projects cmd_projects : Option (List (String × String)))
    (lookback_period : Nat) : Except Unit (MagTable × MagTable) := do
  let resp ← resolveResponse passed_response cmd_response
  let projs ← resolveProjects passed_projects cmd_projects
  match get_project_mag_ratios_from_response cache resp projs lookback_period with
  | (newCache, .ok t) => Except.ok (t, newCache)
  | (_, .error e) => Except.error e

/-- Models `get_project_mag_ratios`: on any exception in the try body,
serve the cache when it is nonempty, else return `None`; the pair holds
the returned value and the cache after the call. -/
def get_project_mag_ratios (cache : MagTable)
    (passed_response cmd_response : Option (List Superblock))
    (passed_projects cmd_projects : Option (List (String × String)))
    (lookback_period : Nat) : Option MagTable × MagTable :=
  match magRatiosTry cache passed_response cmd_response passed_projects
      cmd_projects lookback_period with
  | .ok (t, c) => (some t, c)
  | .error _ => if cache.isEmpty then (none, cache) else (some cache, cache)

/-- C4: when the lookup fails — the live query raises or yields a falsy
result, or the response computation itself raises — a nonempty cache is
returned unchanged and an empty cache yields the explicit `none` (never
an empty table); and the cache changes only on a successful refresh, so a
failure can never reset it. -/
theorem mag_ratio_cache_discipline (cache : MagTable)
    (passed_response cmd_response : Option (List Superblock))
    (passed_projects cmd_projects : Option (List (String × String)))
    (lookback_period : Nat) :
    (∀ e, magRatiosTry cache passed_response cmd_response passed_projects
        cmd_projects lookback_period = .error e →
      (cache ≠ [] → get_project_mag_ratios cache passed_response cmd_response
          passed_projects cmd_projects lookback_period = (some cache, cache)) ∧
      (cache = [] → get_project_mag_ratios cache passed_response cmd_response
          passed_projects cmd_projects lookback_period = (none, cache))) ∧
    (∀ res newCache,
      get_project_mag_ratios cache passed_response cmd_response
        passed_projects cmd_projects lookback_period = (res, newCache) →
      newCache ≠ cache →
      ∃ t, magRatiosTry cache passed_response cmd_response passed_projects
          cmd_projects lookback_period = .ok (t, newCache) ∧ res = some t) := by
  constructor
  · intro e herr
    constructor
    · intro hc
      unfold get_project_mag_ratios
      rw [herr]
      rw [if_neg (by simpa using hc)]
    · intro hc
      unfold get_project_mag_ratios
      rw [herr]
      rw [if_pos (by simpa using hc)]
  · intro res newCache hres hchange
    unfold get_project_mag_ratios at hres
    cases htry : magRatiosTry cache passed_response cmd_response passed_projects
        cmd_projects lookback_period with
    | ok pr =>
      obtain ⟨t, c⟩ := pr
      rw [htry] at hres
      simp only [Prod.mk.injEq] at hres
      obtain ⟨h1, h2⟩ := hres
      subst h2
      exact ⟨t, rfl, h1.symm⟩
    | error e =>
      rw [htry] at hres
      exfalso
      apply hchange
      by_cases hc : cache.isEmpty
      · rw [if_pos hc] at hres
        simp only [Prod.mk.injEq] at hres
        exact hres.2.symm
      · rw [if_neg hc] at hres
        simp only [Prod.mk.injEq] at hres
        exact hres.2.symm

/-- C4, witness: a failing live query (both response sources absent) with
a nonempty one-entry cache returns that cache unchanged. -/
theorem mag_ratio_cache_discipline_witness :
    get_project_mag_ratios [(("X".toList : PyStr), 1)] none none none none 30 =
      (some [(("X".toList : PyStr), 1)], [(("X".toList : PyStr), 1)]) :=
  ((mag_ratio_cache_discipline [(("X".toList : PyStr), 1)] none none none none 30).1
    () rfl).1 (by simp)

/-
Thermal PID Controller — src/utils/tune_temp.py `PIDController`
(line 76).  Numbers are modelled as `Rat`; the two transcendental
constants and functions of the source (`math.log`, `math.exp`) enter as
parameters: `logValue` stands for `math.log(1/0.001 - 1)` in the
constructor, `expFn`/`logFn` for `math.exp`/`math.log` in the sigmoid
clamp and its inverse.  Divisions whose denominators the source
guards (`t_integral != 0`, the stored `delta_time` being positive) use
total `Rat` division. -/

structure PIDController where
  target_opt : Rat
  clamped_low : Rat
  clamped_high : Rat
  clamp_soft : Rat
  clamp_hard : Rat
  reset_counter : Int
  last_timestamp : Option Rat
  error_0 : Option Rat
  error_1 : Option Rat
  delta_time : Option Rat
  ctrl : Rat
  k_proportional : Rat
  t_integral : Rat
  t_derivative : Rat
  k_ultimate : Option Rat
  stable_period : Option Rat
deriving DecidableEq

/-- Models `PIDController.__init__(init_ctrl, target_opt)`; `logValue`
stands for the float `math.log(1 / 0.001 - 1)`. -/
def pidInit (init_ctrl target_opt logValue : Rat) : PIDController :=
  { target_opt := target_opt
    clamped_low := 0
    clamped_high := 1
    clamp_soft := logValue
    clamp_hard := logValue * (5 / 4)
    reset_counter := 0
    last_timestamp := none
    error_0 := none
    error_1 := none
    delta_time := none
    ctrl := init_ctrl
    k_proportional := 0
    t_integral := 0
    t_derivative := 0
    k_ultimate := none
    stable_period := none }

/-- Models the `clamped_ctrl` property getter: the sigmoid-squashed,
bounded projection of the raw accumulator; `expFn` models `math.exp`. -/
def clamped_ctrl (expFn : Rat → Rat) (c : PIDController) : Rat :=
  if c.ctrl < -c.clamp_soft then c.clamped_low
  else if c.ctrl > c.clamp_soft then c.clamped_high
  else c.clamped_low + (c.clamped_high - c.clamped_low) *
    (1 / (1 + expFn (-c.ctrl)))

/-- Models the `clamped_ctrl` property setter: the inverse (`logit`)
mapping back into the raw accumulator; `logFn` models `math.log`. -/
def set_clamped_ctrl (logFn : Rat → Rat) (c : PIDController)
    (value : Rat) : PIDController :=
  if (value - c.clamped_low) * (c.clamped_high - c.clamped_low) ≤ 0 then
    { c with ctrl := -c.clamp_soft }
  else if (c.clamped_high - value) * (c.clamped_high - c.clamped_low) ≤ 0 then
    { c with ctrl := c.clamp_soft }
  else
    { c with ctrl := -(logFn (1 / ((value - c.clamped_low) /
        (c.clamped_high - c.clamped_low)) - 1)) }

/-- Models `export_state`: a dict with only `ctrl` and `clamped_ctrl`
(the tuning fields are commented out in the source). -/
structure PidStateDict where
  ctrl : Option Rat
  clamped_ctrl : Option Rat
  k_ultimate : Option Rat
  stable_period : Option Rat
  k_proportional : Option Rat
  t_integral : Option Rat
  t_derivative : Option Rat
deriving DecidableEq

def export_state (expFn : Rat → Rat) (c : PIDController) : PidStateDict :=
  { ctrl := some c.ctrl
    clamped_ctrl := some (clamped_ctrl expFn c)
    k_ultimate := none
    stable_period := none
    k_proportional := none
    t_integral := none
    t_derivative := none }

/-- Models `set_params_from_state`: asserts both tuning fields are set
(an `AssertionError` — modelled as `Except.error` — otherwise), then
derives the three gains. -/
def set_params_from_state (c : PIDController) : Except Unit PIDController :=
  match c.stable_period with
  | none => .error ()
  | some sp =>
    match c.k_ultimate with
    | none => .error ()
    | some ku =>
      .ok { c with k_proportional := (6 / 10) * ku,
                   t_integral := (5 / 10) * sp,
                   t_derivative := (125 / 1000) * sp }

/-- The first two statements of `import_state`: restore `ctrl`, then
re-derive it from a persisted `clamped_ctrl` through the setter. -/
def importStateCtrl (logFn : Rat → Rat) (state : PidStateDict)
    (c : PIDController) : PIDController :=
  let c1 := { c with ctrl := state.ctrl.getD c.ctrl }
  match state.clamped_ctrl with
  | some v => set_clamped_ctrl logFn c1 v
  | none => c1

/-- The tuning-field merge of `import_state`: `state.get` keeps the
controller value when the key is absent. -/
def importStateTuning (state : PidStateDict) (c : PIDController) : PIDController :=
  { c with
    k_ultimate := match state.k_ultimate with
      | some v => some v
      | none => c.k_ultimate,
    stable_period := match state.stable_period with
      | some v => some v
      | none => c.stable_period }

/-- Models `import_state(state)`: restore `ctrl`, re-derive it from a
persisted `clamped_ctrl`, merge the tuning fields, call
`set_params_from_state` (whose assertion raises when the state and the
controller both lack the tuning fields — the raise propagates), then
merge explicit gains. -/
def import_state (logFn : Rat → Rat) (state : PidStateDict)
    (c : PIDController) : Except Unit PIDController :=
  let c2 := importStateCtrl logFn state c
  let c3 := importStateTuning state c2
  match set_params_from_state c3 with
  | .error e => .error e
  | .ok c4 =>
    .ok { c4 with
      k_proportional := state.k_proportional.getD c4.k_proportional,
      t_integral := state.t_integral.getD c4.t_integral,
      t_derivative := state.t_derivative.getD c4.t_derivative }

theorem set_clamped_ctrl_stable_period (logFn : Rat → Rat) (c : PIDController)
    (v : Rat) : (set_clamped_ctrl logFn c v).stable_period = c.stable_period := by
  unfold set_clamped_ctrl
  split
  · rfl
  · split
    · rfl
    · rfl

theorem importStateCtrl_stable_period (logFn : Rat → Rat) (state : PidStateDict)
    (c : PIDController) :
    (importStateCtrl logFn state c).stable_period = c.stable_period := by
  unfold importStateCtrl
  cases state.clamped_ctrl with
  | some v => exact set_clamped_ctrl_stable_period logFn _ v
  | none => rfl

theorem importStateTuning_stable_period {state : PidStateDict}
    (c : PIDController) (hst : state.stable_period = none) :
    (importStateTuning state c).stable_period = c.stable_period := by
  unfold importStateTuning
  rw [hst]

theorem set_params_from_state_error {c : PIDController}
    (h : c.stable_period = none) : set_params_from_state c = .error () := by
  unfold set_params_from_state
  rw [h]

/-- Models `update_pid(error, delta_time, clamped)`: returns the control
delta and the controller with its error/delta-time history advanced. -/
def update_pid (c : PIDController) (error delta_time : Rat)
    (clamped : Bool) : Rat × PIDController :=
  let k_p0 := c.k_proportional
  let k_i0 := if c.t_integral ≠ 0 then k_p0 / c.t_integral else 0
  let k_d0 := k_p0 * c.t_derivative
  let k_p := if c.error_0 = none then 0 else k_p0
  let k_d1 := if c.error_0 = none then 0 else k_d0
  let noHist := c.delta_time = none ∨ c.error_1 = none
  let k_d := if noHist then 0 else k_d1
  let dt_mid := if noHist then delta_time
    else (delta_time + c.delta_time.getD 0) / 2
  let dt_ratio := if noHist then 1 else delta_time / c.delta_time.getD 0
  let k_i := if clamped then 0 else k_i0
  let delta0 := (k_p + k_i * delta_time + k_d / dt_mid) * error
  let delta1 := delta0 + (match c.error_0 with
    | some e0 => (-k_p - k_d * (1 + dt_ratio) / dt_mid) * e0
    | none => 0)
  let delta := delta1 + (match c.error_1 with
    | some e1 => (k_d * dt_ratio / dt_mid) * e1
    | none => 0)
  (delta, { c with
    error_1 := c.error_0,
    error_0 := some error,
    delta_time := if delta_time > 0 then some delta_time else none })

/-- Models `delta_update(opt_value, delta_time)`. -/
def delta_update (c : PIDController) (opt_value delta_time : Rat) : PIDController :=
  let error := c.target_opt - opt_value
  let pair := update_pid c error delta_time (|c.ctrl| > c.clamp_soft)
  { pair.2 with ctrl := max (-c.clamp_hard) (min c.clamp_hard (c.ctrl + pair.1)) }

/-- Models `timestamp_update(opt_value, timestamp)`: the first-ever call
records the timestamp and returns; later calls feed the elapsed time to
`delta_update`. -/
def timestamp_update (c : PIDController) (opt_value timestamp : Rat) : PIDController :=
  match c.last_timestamp with
  | none => { c with last_timestamp := some timestamp }
  | some last =>
    delta_update { c with last_timestamp := some timestamp }
      opt_value (timestamp - last)

/-- C1: importing an exported state into a fresh controller never
succeeds — `export_state` omits `k_ultimate` and `stable_period` (they
are commented out), a fresh controller has neither, and
`set_params_from_state` asserts `stable_period is not None`, so
`import_state` raises `AssertionError` instead of reproducing the
original clamped output. -/
theorem import_export_fresh_asserts (c : PIDController)
    (expFn logFn : Rat → Rat) (init_ctrl target_opt logValue : Rat) :
    import_state logFn (export_state expFn c)
      (pidInit init_ctrl target_opt logValue) = .error () := by
  have hsp : (importStateTuning (export_state expFn c)
      (importStateCtrl logFn (export_state expFn c)
        (pidInit init_ctrl target_opt logValue))).stable_period = none := by
    rw [importStateTuning_stable_period _ rfl, importStateCtrl_stable_period]
    rfl
  simp only [import_state]
  rw [set_params_from_state_error hsp]

/-- C9: on the first-ever `timestamp_update` (no prior timestamp) only
`last_timestamp` is assigned — `ctrl`, `error_0`, `error_1`,
`delta_time` and every other field keep their values, and consequently
the clamped output is unchanged for every model of `math.exp`. -/
theorem timestamp_update_first_frame (c : PIDController)
    (opt_value timestamp : Rat) (expFn : Rat → Rat)
    (h : c.last_timestamp = none) :
    timestamp_update c opt_value timestamp =
      { c with last_timestamp := some timestamp } ∧
    clamped_ctrl expFn (timestamp_update c opt_value timestamp) =
      clamped_ctrl expFn c := by
  have heq : timestamp_update c opt_value timestamp =
      { c with last_timestamp := some timestamp } := by
    unfold timestamp_update
    rw [h]
  refine ⟨heq, ?_⟩
  rw [heq]
  unfold clamped_ctrl
  rfl

/-- C9, witness: the frame theorem applied to a fresh controller (whose
`last_timestamp` is `None`) at temperature 65 and timestamp 1000, with
the identity standing in for `math.exp`. -/
theorem timestamp_update_first_frame_witness :
    timestamp_update (pidInit 0 70 7) 65 1000 =
      { pidInit 0 70 7 with last_timestamp := some 1000 } ∧
    clamped_ctrl id (timestamp_update (pidInit 0 70 7) 65 1000) =
      clamped_ctrl id (pidInit 0 70 7) :=
  timestamp_update_first_frame (pidInit 0 70 7) 65 1000 id rfl
